import Mathlib

/-!
# Recursive-descent syntax checker (`src/parser.c`, `src/parser.h`)

A shallow embedding of the parser engine: the token buffer, the parser state
(`Parser`), the cursor primitives and the parsing routines, followed by the
properties proved about them.

Conventions of the embedding.

* The C `int` fields `token_index`, `token_capacity` and `error_count` are
  natural numbers; the routines only ever add one to them.
* `current_token` is a pointer into the `tokens` array; it is modelled by the
  index of the element it points at, `none` being `NULL`.
* `tokens` lists the initialised elements of the array.  Reading through a
  `NULL` pointer, or through a pointer to an element that was never stored,
  is undefined in C; the embedding makes such a read an explicit `fault`.
* `fprintf (stderr, ...)` appends one `Diagnostic` to the `stderr` component
  carried with the state.
* The loops and the recursion of the C code are driven by a fuel argument;
  `out_of_fuel` is returned when it runs out.
-/

namespace JsParser

/-- Token kinds, `TokenType` of `parser.h`. -/
inductive TokenType where
  | TOKEN_EOF
  | TOKEN_KEYWORD
  | TOKEN_IDENTIFIER
  | TOKEN_STRING
  | TOKEN_NUMBER
  | TOKEN_OPERATOR
  | TOKEN_PUNCTUATION
  | TOKEN_BOOLEAN
  | TOKEN_NULL
  | TOKEN_UNDEFINED
  | TOKEN_COMMENT
  deriving DecidableEq, Repr

open TokenType

/-- Token structure of `parser.h`. -/
structure Token where
  type : TokenType
  value : String
  line : Int
  column : Int
  deriving DecidableEq, Repr

/-- One line written to the diagnostic stream by `parser_error`. -/
structure Diagnostic where
  line : Int
  column : Int
  message : String
  deriving DecidableEq, Repr

/-- Parser state of `parser.h`, together with the diagnostic stream. -/
structure Parser where
  current_token : Option Nat
  tokens : List Token
  token_index : Nat
  token_capacity : Nat
  error_count : Nat
  stderr : List Diagnostic
  deriving DecidableEq, Repr

/-- Reads that C leaves undefined. -/
inductive Fault where
  | null_dereference
  | invalid_read
  deriving DecidableEq, Repr

/-- Result of running a routine: a value, an undefined read, or no fuel left. -/
inductive Outcome (α : Type) where
  | ok (a : α)
  | fault (f : Fault)
  | out_of_fuel
  deriving DecidableEq, Repr

/-- Sequencing of routines: a fault or exhausted fuel ends the run. -/
def Outcome.bind {α β : Type} (x : Outcome α) (f : α → Outcome β) : Outcome β :=
  match x with
  | .ok a => f a
  | .fault e => .fault e
  | .out_of_fuel => .out_of_fuel

/-- Dereference of `parser->current_token`. -/
def read_current (parser : Parser) : Outcome Token :=
  match parser.current_token with
  | none => .fault .null_dereference
  | some i =>
    match parser.tokens.get? i with
    | none => .fault .invalid_read
    | some t => .ok t

/-- The function `parser_error`: prints the position of the current token and
the message, then counts the error. -/
def parser_error (parser : Parser) (message : String) : Outcome Parser :=
  (read_current parser).bind fun t =>
    .ok { parser with
      stderr := parser.stderr ++ [⟨t.line, t.column, message⟩]
      error_count := parser.error_count + 1 }

/-- The function `peek_token`. -/
def peek_token (parser : Parser) : Option Nat :=
  if parser.token_index ≥ parser.token_capacity then none
  else some parser.token_index

/-- The function `advance_token`. -/
def advance_token (parser : Parser) : Parser :=
  if parser.token_index < parser.token_capacity then
    let parser1 := { parser with token_index := parser.token_index + 1 }
    { parser1 with current_token := peek_token parser1 }
  else parser

/-- The function `match_token`; the flag is the returned `int`. -/
def match_token (parser : Parser) (type : TokenType) : Outcome (Bool × Parser) :=
  match parser.current_token with
  | none => .ok (false, parser)
  | some _ =>
    (read_current parser).bind fun t =>
      if t.type = type then .ok (true, advance_token parser)
      else .ok (false, parser)

/-- The function `parse_expression`. -/
def parse_expression (parser : Parser) : Outcome Parser :=
  match parser.current_token with
  | none => .ok parser
  | some _ =>
    (read_current parser).bind fun t =>
      match t.type with
      | TOKEN_IDENTIFIER | TOKEN_NUMBER | TOKEN_STRING | TOKEN_BOOLEAN =>
        .ok (advance_token parser)
      | _ =>
        (parser_error parser "Expected expression").bind fun p =>
          .ok (advance_token p)

/-- The function `parse_variable_declaration`. -/
def parse_variable_declaration (parser : Parser) : Outcome Parser :=
  (match_token parser TOKEN_KEYWORD).bind fun r1 =>
    if r1.1 = false then
      parser_error r1.2 "Expected variable declaration keyword"
    else (match_token r1.2 TOKEN_IDENTIFIER).bind fun r2 =>
      if r2.1 = false then parser_error r2.2 "Expected variable name"
      else
        let init : Outcome Parser :=
          match r2.2.current_token with
          | none => .ok r2.2
          | some _ =>
            (read_current r2.2).bind fun t =>
              if t.type = TOKEN_OPERATOR ∧ t.value = "=" then
                parse_expression (advance_token r2.2)
              else .ok r2.2
        init.bind fun p3 =>
          (match_token p3 TOKEN_PUNCTUATION).bind fun r4 =>
            if r4.1 = false then parser_error r4.2 "Expected semicolon"
            else .ok r4.2

/-- The parameter loop of `parse_function_declaration`.  The flag is `true`
when the loop ends because its condition fails, and `false` when the body
returns from the enclosing function. -/
def parse_parameters : Nat → Parser → Outcome (Bool × Parser)
  | 0, _ => .out_of_fuel
  | n + 1, parser =>
    match parser.current_token with
    | none => .ok (true, parser)
    | some _ =>
      (read_current parser).bind fun t =>
        if t.type = TOKEN_PUNCTUATION ∧ t.value = ")" then .ok (true, parser)
        else (match_token parser TOKEN_IDENTIFIER).bind fun r1 =>
          if r1.1 = false then
            (parser_error r1.2 "Expected parameter name").bind fun p =>
              .ok (false, p)
          else (read_current r1.2).bind fun c =>
            if c.type = TOKEN_PUNCTUATION ∧ c.value = "," then
              parse_parameters n (advance_token r1.2)
            else parse_parameters n r1.2

mutual

/-- The function `parse_statement`. -/
def parse_statement : Nat → Parser → Outcome Parser
  | 0, _ => .out_of_fuel
  | n + 1, parser =>
    match parser.current_token with
    | none => .ok parser
    | some _ =>
      (read_current parser).bind fun token =>
        if token.type = TOKEN_KEYWORD then
          if token.value = "function" then parse_function_declaration n parser
          else if token.value = "var" ∨ token.value = "let"
              ∨ token.value = "const" then
            parse_variable_declaration parser
          else if token.value = "if" then parse_if_statement n parser
          else if token.value = "while" then parse_while_statement n parser
          else
            (parser_error parser "Unexpected keyword").bind fun p =>
              .ok (advance_token p)
        else
          (parse_expression parser).bind fun p =>
            (match_token p TOKEN_PUNCTUATION).bind fun r =>
              if r.1 = false then parser_error r.2 "Expected semicolon"
              else .ok r.2

/-- The statement loop of `parse_block`. -/
def parse_block_statements : Nat → Parser → Outcome Parser
  | 0, _ => .out_of_fuel
  | n + 1, parser =>
    match parser.current_token with
    | none => .ok parser
    | some _ =>
      (read_current parser).bind fun t =>
        if t.type = TOKEN_PUNCTUATION ∧ t.value = "\x7d" then .ok parser
        else (parse_statement n parser).bind fun p =>
          parse_block_statements n p

/-- The function `parse_block`. -/
def parse_block : Nat → Parser → Outcome Parser
  | 0, _ => .out_of_fuel
  | n + 1, parser =>
    (match_token parser TOKEN_PUNCTUATION).bind fun r1 =>
      if r1.1 = false then parser_error r1.2 "Expected \x7b"
      else (parse_block_statements n r1.2).bind fun p =>
        (match_token p TOKEN_PUNCTUATION).bind fun r2 =>
          if r2.1 = false then parser_error r2.2 "Expected \x7d"
          else .ok r2.2

/-- The function `parse_function_declaration`. -/
def parse_function_declaration : Nat → Parser → Outcome Parser
  | 0, _ => .out_of_fuel
  | n + 1, parser =>
    (match_token parser TOKEN_KEYWORD).bind fun r1 =>
      if r1.1 = false then parser_error r1.2 "Expected 'function' keyword"
      else (match_token r1.2 TOKEN_IDENTIFIER).bind fun r2 =>
        if r2.1 = false then parser_error r2.2 "Expected function name"
        else (match_token r2.2 TOKEN_PUNCTUATION).bind fun r3 =>
          if r3.1 = false then parser_error r3.2 "Expected '('"
          else (parse_parameters n r3.2).bind fun r4 =>
            if r4.1 = false then .ok r4.2
            else (match_token r4.2 TOKEN_PUNCTUATION).bind fun r5 =>
              if r5.1 = false then parser_error r5.2 "Expected ')'"
              else parse_block n r5.2

/-- The function `parse_if_statement`. -/
def parse_if_statement : Nat → Parser → Outcome Parser
  | 0, _ => .out_of_fuel
  | n + 1, parser =>
    (match_token parser TOKEN_KEYWORD).bind fun r1 =>
      if r1.1 = false then parser_error r1.2 "Expected 'if' keyword"
      else (match_token r1.2 TOKEN_PUNCTUATION).bind fun r2 =>
        if r2.1 = false then parser_error r2.2 "Expected '('"
        else (parse_expression r2.2).bind fun p3 =>
          (match_token p3 TOKEN_PUNCTUATION).bind fun r4 =>
            if r4.1 = false then parser_error r4.2 "Expected ')'"
            else (parse_block n r4.2).bind fun p5 =>
              match p5.current_token with
              | none => .ok p5
              | some _ =>
                (read_current p5).bind fun t =>
                  if t.type = TOKEN_KEYWORD ∧ t.value = "else" then
                    let p6 := advance_token p5
                    match p6.current_token with
                    | none => parse_block n p6
                    | some _ =>
                      (read_current p6).bind fun u =>
                        if u.type = TOKEN_KEYWORD ∧ u.value = "if" then
                          parse_if_statement n p6
                        else parse_block n p6
                  else .ok p5

/-- The function `parse_while_statement`. -/
def parse_while_statement : Nat → Parser → Outcome Parser
  | 0, _ => .out_of_fuel
  | n + 1, parser =>
    (match_token parser TOKEN_KEYWORD).bind fun r1 =>
      if r1.1 = false then parser_error r1.2 "Expected 'while' keyword"
      else (match_token r1.2 TOKEN_PUNCTUATION).bind fun r2 =>
        if r2.1 = false then parser_error r2.2 "Expected '('"
        else (parse_expression r2.2).bind fun p3 =>
          (match_token p3 TOKEN_PUNCTUATION).bind fun r4 =>
            if r4.1 = false then parser_error r4.2 "Expected ')'"
            else parse_block n r4.2

end

/-- The function `parse_program`. -/
def parse_program : Nat → Parser → Outcome Parser
  | 0, _ => .out_of_fuel
  | n + 1, parser =>
    match parser.current_token with
    | none => .ok parser
    | some _ =>
      (read_current parser).bind fun t =>
        if t.type ≠ TOKEN_EOF then
          (parse_statement n parser).bind fun p => parse_program n p
        else .ok parser

/-- Parser state `parse_program` is entered with for the token buffer `ts`:
the buffer holds exactly the tokens of `ts`, the cursor is at token 0, the
current token is the one under the cursor (`NULL` for the empty buffer) and no
error has been counted.  The state `main` builds differs in `token_capacity`
only, which it sets to 1000 slots or more. -/
def start (ts : List Token) : Parser :=
  { current_token := if ts.length = 0 then none else some 0
    tokens := ts
    token_index := 0
    token_capacity := ts.length
    error_count := 0
    stderr := [] }


/-- The cached current token is the one `peek_token` finds under the cursor. -/
def Consistent (p : Parser) : Prop :=
  p.current_token = peek_token p

instance (p : Parser) : Decidable (Consistent p) := by
  unfold Consistent; infer_instance

/-- The run from `p` to `q` wrote the diagnostics `ds` and counted each of
them once. -/
def Emitted (p q : Parser) (ds : List Diagnostic) : Prop :=
  q.stderr = p.stderr ++ ds ∧ q.error_count = p.error_count + ds.length

/-- What every routine preserves between the state `p` it is entered with and
the state `q` it returns. -/
structure Extends (p q : Parser) : Prop where
  tokens_eq : q.tokens = p.tokens
  capacity_eq : q.token_capacity = p.token_capacity
  index_le : p.token_index ≤ q.token_index
  index_bound : p.token_index ≤ p.token_capacity → q.token_index ≤ q.token_capacity
  consistent : Consistent p → Consistent q
  emitted : ∃ ds, Emitted p q ds

/-- Outcome of a routine entered on a present token: it moves the cursor. -/
def StatementStep (p q : Parser) : Prop :=
  Extends p q ∧
    (Consistent p → p.current_token ≠ none → p.token_index < q.token_index)

/-- Outcome of a routine entered on a keyword token: it moves the cursor. -/
def KeywordStep (p q : Parser) : Prop :=
  Extends p q ∧
    (Consistent p → (∃ t, read_current p = .ok t ∧ t.type = TOKEN_KEYWORD) →
      p.token_index < q.token_index)

/-- Number of tokens between the cursor and the end of the buffer. -/
def unconsumed (p : Parser) : Nat :=
  p.token_capacity - p.token_index

/-- The routine `f` halts on every consistent state once the fuel reaches
`4 * unconsumed + c`. -/
def HaltsFrom {α : Type} (c : Nat) (f : Nat → Parser → Outcome α) (n : Nat) : Prop :=
  ∀ p : Parser, Consistent p → 4 * unconsumed p + c ≤ n → f n p ≠ .out_of_fuel

/-- The outcome `y` agrees with `x` unless `x` ran out of fuel. -/
def Outcome.Refines {α : Type} (x y : Outcome α) : Prop :=
  x = .out_of_fuel ∨ x = y

/-- The property `P` relates the state `p` to the state left by each operation
of the engine run on `p`, whenever that operation returns. -/
def AfterEvery (P : Parser → Parser → Prop) (p : Parser) : Prop :=
  P p (advance_token p) ∧
  (∀ k r, match_token p k = .ok r → P p r.2) ∧
  (∀ m q, parser_error p m = .ok q → P p q) ∧
  (∀ q, parse_expression p = .ok q → P p q) ∧
  (∀ q, parse_variable_declaration p = .ok q → P p q) ∧
  (∀ n r, parse_parameters n p = .ok r → P p r.2) ∧
  (∀ n q, parse_statement n p = .ok q → P p q) ∧
  (∀ n q, parse_block_statements n p = .ok q → P p q) ∧
  (∀ n q, parse_block n p = .ok q → P p q) ∧
  (∀ n q, parse_function_declaration n p = .ok q → P p q) ∧
  (∀ n q, parse_if_statement n p = .ok q → P p q) ∧
  (∀ n q, parse_while_statement n p = .ok q → P p q) ∧
  (∀ n q, parse_program n p = .ok q → P p q)

/-- The cursor of `q` is not before the cursor of `p` and not past the end of
the buffer, whose length is the same in both. -/
def CursorKept (p q : Parser) : Prop :=
  p.token_index ≤ q.token_index ∧ q.token_index ≤ q.token_capacity ∧
    q.token_capacity = p.token_capacity

/-- The error count of `q` is that of `p` plus the number of diagnostics
written in between; in particular it is not smaller. -/
def Accounted (p q : Parser) : Prop :=
  (∃ ds, q.stderr = p.stderr ++ ds ∧ q.error_count = p.error_count + ds.length) ∧
    p.error_count ≤ q.error_count

/-- The tokens used in the examples, all at line 1, column 1. -/
def keyword (s : String) : Token := ⟨TOKEN_KEYWORD, s, 1, 1⟩

def identifier (s : String) : Token := ⟨TOKEN_IDENTIFIER, s, 1, 1⟩

def number (s : String) : Token := ⟨TOKEN_NUMBER, s, 1, 1⟩

def punctuation (s : String) : Token := ⟨TOKEN_PUNCTUATION, s, 1, 1⟩

def operator (s : String) : Token := ⟨TOKEN_OPERATOR, s, 1, 1⟩

/-! ## The grammar of the language -/

/-- An expression token: an identifier, a number, a string or a boolean. -/
def IsExpression (t : Token) : Prop :=
  t.type = TOKEN_IDENTIFIER ∨ t.type = TOKEN_NUMBER ∨ t.type = TOKEN_STRING
    ∨ t.type = TOKEN_BOOLEAN

/-- The terminal `IDENT`. -/
def IsIdentifier (t : Token) : Prop := t.type = TOKEN_IDENTIFIER

/-- The terminal `PUNCT`: any punctuation token. -/
def IsTerminator (t : Token) : Prop := t.type = TOKEN_PUNCTUATION

/-- A quoted keyword terminal, such as `'while'`. -/
def IsKeyword (s : String) (t : Token) : Prop :=
  t.type = TOKEN_KEYWORD ∧ t.value = s

/-- A quoted punctuation terminal, such as `'('`. -/
def IsPunctuation (s : String) (t : Token) : Prop :=
  t.type = TOKEN_PUNCTUATION ∧ t.value = s

/-- A quoted operator terminal, `'='`. -/
def IsOperator (s : String) (t : Token) : Prop :=
  t.type = TOKEN_OPERATOR ∧ t.value = s

/-- Nonterminals: `statement*`, `statement`, the non-empty parameter list
`IDENT (',' IDENT)*`, `if-stmt` and `block`. -/
inductive Symbol where
  | statements
  | statement
  | parameters
  | if_statement
  | block

/-- Derivability of a token sequence from a nonterminal of the grammar
`program = statement*`, `statement = function-decl | var-decl | if-stmt |
while-stmt | expression PUNCT`, with the productions of the spec for each. -/
inductive Derives : Symbol → List Token → Prop where
  | statements_nil : Derives .statements []
  | statements_cons {s ss : List Token} :
      Derives .statement s → Derives .statements ss → Derives .statements (s ++ ss)
  | expression_statement {e t : Token} :
      IsExpression e → IsTerminator t → Derives .statement [e, t]
  | function_declaration {f x l r : Token} {b : List Token} :
      IsKeyword "function" f → IsIdentifier x → IsPunctuation "(" l →
      IsPunctuation ")" r → Derives .block b →
      Derives .statement (f :: x :: l :: r :: b)
  | function_declaration_parameters {f x l r : Token} {ps b : List Token} :
      IsKeyword "function" f → IsIdentifier x → IsPunctuation "(" l →
      Derives .parameters ps → IsPunctuation ")" r → Derives .block b →
      Derives .statement (f :: x :: l :: ps ++ r :: b)
  | parameters_one {x : Token} : IsIdentifier x → Derives .parameters [x]
  | parameters_more {x c : Token} {ps : List Token} :
      IsIdentifier x → IsPunctuation "," c → Derives .parameters ps →
      Derives .parameters (x :: c :: ps)
  | variable_declaration {k x t : Token} :
      (IsKeyword "var" k ∨ IsKeyword "let" k ∨ IsKeyword "const" k) →
      IsIdentifier x → IsTerminator t → Derives .statement [k, x, t]
  | variable_declaration_initialised {k x o e t : Token} :
      (IsKeyword "var" k ∨ IsKeyword "let" k ∨ IsKeyword "const" k) →
      IsIdentifier x → IsOperator "=" o → IsExpression e → IsTerminator t →
      Derives .statement [k, x, o, e, t]
  | if_statement_statement {s : List Token} :
      Derives .if_statement s → Derives .statement s
  | while_statement {w l e r : Token} {b : List Token} :
      IsKeyword "while" w → IsPunctuation "(" l → IsExpression e →
      IsPunctuation ")" r → Derives .block b →
      Derives .statement (w :: l :: e :: r :: b)
  | if_then {i l e r : Token} {b : List Token} :
      IsKeyword "if" i → IsPunctuation "(" l → IsExpression e →
      IsPunctuation ")" r → Derives .block b →
      Derives .if_statement (i :: l :: e :: r :: b)
  | if_else {i l e r el : Token} {b b2 : List Token} :
      IsKeyword "if" i → IsPunctuation "(" l → IsExpression e →
      IsPunctuation ")" r → Derives .block b → IsKeyword "else" el →
      Derives .block b2 →
      Derives .if_statement (i :: l :: e :: r :: b ++ el :: b2)
  | if_else_if {i l e r el : Token} {b s2 : List Token} :
      IsKeyword "if" i → IsPunctuation "(" l → IsExpression e →
      IsPunctuation ")" r → Derives .block b → IsKeyword "else" el →
      Derives .if_statement s2 →
      Derives .if_statement (i :: l :: e :: r :: b ++ el :: s2)
  | block {l r : Token} {ss : List Token} :
      IsPunctuation "\x7b" l → Derives .statements ss → IsPunctuation "\x7d" r →
      Derives .block (l :: ss ++ [r])

/-- The state `p` with the cursor moved `k` tokens on and the current token
refreshed; nothing is counted or written. -/
def skip (k : Nat) (p : Parser) : Parser :=
  { p with
    token_index := p.token_index + k
    current_token := peek_token { p with token_index := p.token_index + k } }

/-- The parser state `p` is consistent, its buffer is full, and the tokens
from the cursor on are `ts`. -/
def Remaining (p : Parser) (ts : List Token) : Prop :=
  Consistent p ∧ p.token_capacity = p.tokens.length ∧
    p.tokens.drop p.token_index = ts

/-- The token sequence `rest` does not begin with the keyword `else`. -/
def NotElse (rest : List Token) : Prop :=
  ∀ t rest1, rest = t :: rest1 → ¬ IsKeyword "else" t

/-- A token that can begin a statement of the grammar. -/
def StartsStatement (t : Token) : Prop :=
  IsExpression t ∨ (t.type = TOKEN_KEYWORD ∧
    (t.value = "function" ∨ t.value = "var" ∨ t.value = "let" ∨ t.value = "const"
      ∨ t.value = "if" ∨ t.value = "while"))

/-- What the routine for a nonterminal does on a state whose unconsumed
tokens begin with a sequence `ts` derived from it: with enough fuel it returns
the state moved past `ts`, nothing counted and nothing written. -/
def Complete : Symbol → List Token → Prop
  | .statement, ts => ∀ p rest, Remaining p (ts ++ rest) → NotElse rest →
      ∃ n, ∀ m, n ≤ m → parse_statement m p = .ok (skip ts.length p)
  | .if_statement, ts => ∀ p rest, Remaining p (ts ++ rest) → NotElse rest →
      ∃ n, ∀ m, n ≤ m → parse_if_statement m p = .ok (skip ts.length p)
  | .block, ts => ∀ p rest, Remaining p (ts ++ rest) →
      ∃ n, ∀ m, n ≤ m → parse_block m p = .ok (skip ts.length p)
  | .parameters, ts => ∀ p r rest, Remaining p (ts ++ r :: rest) →
      IsPunctuation ")" r →
      ∃ n, ∀ m, n ≤ m → parse_parameters m p = .ok (true, skip ts.length p)
  | .statements, ts =>
      (∀ p r rest, Remaining p (ts ++ r :: rest) → IsPunctuation "\x7d" r →
        ∃ n, ∀ m, n ≤ m → parse_block_statements m p = .ok (skip ts.length p)) ∧
      (∀ p, Remaining p ts →
        ∃ n, ∀ m, n ≤ m → parse_program m p = .ok (skip ts.length p))

/-- The tokens of `x ;`. -/
def statement_x : List Token := [identifier "x", punctuation ";"]

/-- The tokens of `{ x ; }`. -/
def block_x : List Token :=
  [punctuation "\x7b", identifier "x", punctuation ";", punctuation "\x7d"]

/-- The tokens of
`let x = 1 ; if ( x ) { while ( x ) { x ; } } else { x ; }`. -/
def program_round_trip : List Token :=
  [keyword "let", identifier "x", operator "=", number "1", punctuation ";",
   keyword "if", punctuation "(", identifier "x", punctuation ")",
   punctuation "\x7b",
   keyword "while", punctuation "(", identifier "x", punctuation ")",
   punctuation "\x7b", identifier "x", punctuation ";", punctuation "\x7d",
   punctuation "\x7d",
   keyword "else",
   punctuation "\x7b", identifier "x", punctuation ";", punctuation "\x7d"]

/-- The tokens of `if ( x ) { x ; } else if ( x ) { x ; }`. -/
def program_else_if : List Token :=
  [keyword "if", punctuation "(", identifier "x", punctuation ")",
   punctuation "\x7b", identifier "x", punctuation ";", punctuation "\x7d",
   keyword "else",
   keyword "if", punctuation "(", identifier "x", punctuation ")",
   punctuation "\x7b", identifier "x", punctuation ";", punctuation "\x7d"]

/-- The tokens of `if ( x ; { x ; }`, where `;` stands in the place of `)`. -/
def program_unclosed_condition : List Token :=
  [keyword "if", punctuation "(", identifier "x", punctuation ";",
   punctuation "\x7b", identifier "x", punctuation ";", punctuation "\x7d"]

/-- The tokens of `let x = 1`, with no terminator. -/
def program_missing_semicolon : List Token :=
  [keyword "let", identifier "x", operator "=", number "1"]

/-- The tokens of `if ( x ) { x ;`, with no closing brace. -/
def program_unterminated_block : List Token :=
  [keyword "if", punctuation "(", identifier "x", punctuation ")",
   punctuation "\x7b", identifier "x", punctuation ";"]

/-! ## The set-up done by `main` -/

/-- The function `create_parser`.  It stores every field but `current_token`,
which keeps whatever value `malloc` left there: the parameter. -/
def createParser (indeterminate : Option Nat) : Parser :=
  { current_token := indeterminate
    tokens := []
    token_index := 0
    token_capacity := 0
    error_count := 0
    stderr := [] }

/-- The token-reading loop of `main`, run over the tokens the scanner yields
before it returns 0: the capacity is doubled when the count has reached it,
then the token is stored at index `token_count`. -/
def read_tokens : List Token → Parser → Nat → Parser × Nat
  | [], parser, token_count => (parser, token_count)
  | t :: scanned, parser, token_count =>
    let parser1 :=
      if token_count ≥ parser.token_capacity then
        { parser with token_capacity := parser.token_capacity * 2 }
      else parser
    read_tokens scanned { parser1 with tokens := parser1.tokens ++ [t] }
      (token_count + 1)

/-- The parser state `main` hands to `parse_program`, built from the tokens
the scanner yields. -/
def main_state (indeterminate : Option Nat) (scanned : List Token) : Parser :=
  let parser := createParser indeterminate
  let parser := { parser with token_capacity := 1000, tokens := [], token_index := 0 }
  let r := read_tokens scanned parser 0
  if r.2 > 0 then { r.1 with current_token := some 0 } else r.1

/-- The tokens of `function f ( a`, ending inside the parameter list. -/
def program_open_parameters : List Token :=
  [keyword "function", identifier "f", punctuation "(", identifier "a"]

/-- The tokens of `while ( + ) { x ; }`, with an operator as the condition. -/
def program_bad_condition : List Token :=
  [keyword "while", punctuation "(", operator "+", punctuation ")",
   punctuation "\x7b", identifier "x", punctuation ";", punctuation "\x7d"]

/-- The tokens of `( x ; }`, a block opened by `(`. -/
def program_paren_block : List Token :=
  [punctuation "(", identifier "x", punctuation ";", punctuation "\x7d"]

/-- An end-of-input token. -/
def end_of_input : Token := ⟨TOKEN_EOF, "", 1, 1⟩

/-- The token array and its capacity are the same in `q` as in `p`. -/
def BufferKept (p q : Parser) : Prop :=
  q.tokens = p.tokens ∧ q.token_capacity = p.token_capacity

/-- The state `parser_error` returns when it reports `message` at the present
token `t`. -/
def record (p : Parser) (t : Token) (message : String) : Parser :=
  { p with
    stderr := p.stderr ++ [⟨t.line, t.column, message⟩]
    error_count := p.error_count + 1 }

/-- The tokens of `if ( + ) { x ; }`, with an operator as the condition. -/
def program_bad_condition_if : List Token :=
  [keyword "if", punctuation "(", operator "+", punctuation ")",
   punctuation "\x7b", identifier "x", punctuation ";", punctuation "\x7d"]

/-- The header steps of `f`, an if- or while-statement routine whose keyword
error is `message`, that end the routine on a present token of the wrong
kind: the keyword, the `(` and the `)`.  The error is recorded at that token
and the state is returned with nothing more consumed. -/
def HeaderAborts (f : Nat → Parser → Outcome Parser) (message : String) : Prop :=
  (∀ n p t, read_current p = .ok t → t.type ≠ TOKEN_KEYWORD →
    f (n + 1) p = .ok (record p t message)) ∧
  (∀ n p k t rest, Remaining p (k :: t :: rest) → k.type = TOKEN_KEYWORD →
    t.type ≠ TOKEN_PUNCTUATION →
    f (n + 1) p = .ok (record (skip 1 p) t "Expected '('")) ∧
  (∀ n p k l c t rest, Remaining p (k :: l :: c :: t :: rest) →
    k.type = TOKEN_KEYWORD → l.type = TOKEN_PUNCTUATION → IsExpression c →
    t.type ≠ TOKEN_PUNCTUATION →
    f (n + 1) p = .ok (record (skip 3 p) t "Expected ')'"))

/-- The header step of `f` that does not end the routine: a condition token
`c` that is no expression is reported and consumed, and `f` goes on to the
`)` and to the body block `b`, which it parses to its end. -/
def ConditionGoesOn (f : Nat → Parser → Outcome Parser) : Prop :=
  ∀ p k l c r b rest, Remaining p (k :: l :: c :: r :: (b ++ rest)) →
    k.type = TOKEN_KEYWORD → l.type = TOKEN_PUNCTUATION → ¬ IsExpression c →
    r.type = TOKEN_PUNCTUATION → Derives .block b → NotElse rest →
    ∃ n, ∀ m, n ≤ m →
      f m p = .ok (record (skip (4 + b.length) p) c "Expected expression")

/-! ## Sequencing -/

section Basics

variable {α β : Type}

@[simp] theorem Outcome.bind_ok (a : α) (f : α → Outcome β) :
    (Outcome.ok a).bind f = f a := rfl

@[simp] theorem Outcome.bind_fault (e : Fault) (f : α → Outcome β) :
    (Outcome.fault e : Outcome α).bind f = .fault e := rfl

@[simp] theorem Outcome.bind_out_of_fuel (f : α → Outcome β) :
    (Outcome.out_of_fuel : Outcome α).bind f = .out_of_fuel := rfl

theorem Outcome.bind_eq_ok {x : Outcome α} {f : α → Outcome β} {b : β} :
    x.bind f = .ok b ↔ ∃ a, x = .ok a ∧ f a = .ok b := by
  cases x <;> simp

theorem Outcome.bind_ne_out_of_fuel {x : Outcome α} {f : α → Outcome β}
    (hx : x ≠ .out_of_fuel) (hf : ∀ a, x = .ok a → f a ≠ .out_of_fuel) :
    x.bind f ≠ .out_of_fuel := by
  cases x with
  | ok a => simpa using hf a rfl
  | fault e => simp
  | out_of_fuel => exact absurd rfl hx

end Basics

/-! ## The relation `Extends` -/

theorem Extends.refl (p : Parser) : Extends p p :=
  ⟨rfl, rfl, le_refl _, id, id, [], by simp [Emitted]⟩

theorem Extends.trans {p q r : Parser} (h1 : Extends p q) (h2 : Extends q r) :
    Extends p r := by
  obtain ⟨ds1, e1, c1⟩ := h1.emitted
  obtain ⟨ds2, e2, c2⟩ := h2.emitted
  refine ⟨h2.tokens_eq.trans h1.tokens_eq, h2.capacity_eq.trans h1.capacity_eq,
    le_trans h1.index_le h2.index_le, fun h => h2.index_bound (h1.index_bound h),
    fun h => h2.consistent (h1.consistent h), ds1 ++ ds2, ?_, ?_⟩
  · rw [e2, e1, List.append_assoc]
  · rw [c2, c1, List.length_append, Nat.add_assoc]

/-! ## Cursor primitives -/

theorem advance_token_extends (p : Parser) : Extends p (advance_token p) := by
  unfold advance_token
  split
  · refine ⟨rfl, rfl, Nat.le_succ _, fun _ => ?_, fun _ => rfl, [], by simp [Emitted]⟩
    simpa using Nat.succ_le_of_lt ‹_›
  · exact Extends.refl p

theorem consistent_index_lt {p : Parser} (hc : Consistent p) {i : Nat}
    (hi : p.current_token = some i) :
    i = p.token_index ∧ p.token_index < p.token_capacity := by
  unfold Consistent peek_token at hc
  rw [hi] at hc
  split at hc
  · cases hc
  · simp at hc; omega

theorem advance_token_index {p : Parser} (hc : Consistent p)
    (hi : p.current_token ≠ none) :
    (advance_token p).token_index = p.token_index + 1 := by
  obtain ⟨i, hi⟩ := Option.ne_none_iff_exists'.mp hi
  have := (consistent_index_lt hc hi).2
  simp [advance_token, this]

theorem read_current_some {p : Parser} {t : Token} (h : read_current p = .ok t) :
    p.current_token ≠ none := by
  unfold read_current at h
  split at h <;> simp_all

theorem parser_error_spec {p q : Parser} {m : String} (h : parser_error p m = .ok q) :
    ∃ t, read_current p = .ok t ∧
      q = { p with stderr := p.stderr ++ [⟨t.line, t.column, m⟩]
                   error_count := p.error_count + 1 } := by
  unfold parser_error at h
  obtain ⟨t, ht, hq⟩ := Outcome.bind_eq_ok.mp h
  exact ⟨t, ht, by simpa using hq.symm⟩

theorem parser_error_extends {p q : Parser} {m : String}
    (h : parser_error p m = .ok q) : Extends p q ∧ q.token_index = p.token_index := by
  obtain ⟨t, -, rfl⟩ := parser_error_spec h
  exact ⟨⟨rfl, rfl, le_refl _, id, id, [⟨t.line, t.column, m⟩], by simp [Emitted]⟩, rfl⟩

theorem match_token_spec {p : Parser} {k : TokenType} {r : Bool × Parser}
    (h : match_token p k = .ok r) :
    (r.1 = false ∧ r.2 = p) ∨
      (r.1 = true ∧ r.2 = advance_token p ∧ ∃ t, read_current p = .ok t ∧ t.type = k) := by
  unfold match_token at h
  split at h
  · left; cases h; exact ⟨rfl, rfl⟩
  · obtain ⟨t, ht, hr⟩ := Outcome.bind_eq_ok.mp h
    split at hr
    · right; cases hr; exact ⟨rfl, rfl, t, ht, ‹_›⟩
    · left; cases hr; exact ⟨rfl, rfl⟩

theorem match_token_extends {p : Parser} {k : TokenType} {r : Bool × Parser}
    (h : match_token p k = .ok r) :
    Extends p r.2 ∧ (r.1 = true → Consistent p → r.2.token_index = p.token_index + 1) := by
  rcases match_token_spec h with ⟨hb, hq⟩ | ⟨hb, hq, t, ht, -⟩
  · rw [hq]; exact ⟨Extends.refl p, fun h => by simp [hb] at h⟩
  · rw [hq]
    exact ⟨advance_token_extends p, fun _ hc => advance_token_index hc (read_current_some ht)⟩

theorem advance_token_index_of_lt {p : Parser} (h : p.token_index < p.token_capacity) :
    (advance_token p).token_index = p.token_index + 1 := by
  simp [advance_token, h]

theorem consistent_lt {p : Parser} (hc : Consistent p) (hn : p.current_token ≠ none) :
    p.token_index < p.token_capacity := by
  obtain ⟨i, hi⟩ := Option.ne_none_iff_exists'.mp hn
  exact (consistent_index_lt hc hi).2

theorem parse_expression_extends {p q : Parser} (h : parse_expression p = .ok q) :
    Extends p q ∧
      (Consistent p → p.current_token ≠ none → q.token_index = p.token_index + 1) := by
  unfold parse_expression at h
  split at h
  · cases h; exact ⟨Extends.refl p, fun _ hn => absurd ‹_› hn⟩
  · obtain ⟨t, ht, hr⟩ := Outcome.bind_eq_ok.mp h
    have ok_case : Outcome.ok (advance_token p) = Outcome.ok q →
        Extends p q ∧
          (Consistent p → p.current_token ≠ none → q.token_index = p.token_index + 1) := by
      intro e
      cases e
      exact ⟨advance_token_extends p, fun hc hn => advance_token_index hc hn⟩
    split at hr
    · exact ok_case hr
    · exact ok_case hr
    · exact ok_case hr
    · exact ok_case hr
    · obtain ⟨p1, h1, h2⟩ := Outcome.bind_eq_ok.mp hr
      cases h2
      obtain ⟨e1, i1⟩ := parser_error_extends h1
      refine ⟨e1.trans (advance_token_extends p1), fun hc hn => ?_⟩
      have hlt := consistent_lt hc hn
      rw [advance_token_index_of_lt (by rw [i1, e1.capacity_eq]; exact hlt), i1]

theorem match_token_of_read {p : Parser} {t : Token} {k : TokenType}
    (ht : read_current p = .ok t) (hk : t.type = k) :
    match_token p k = .ok (true, advance_token p) := by
  have hn := read_current_some ht
  unfold match_token
  split
  · exact absurd ‹_› hn
  · simp [ht, hk]

theorem match_token_of_read_ne {p : Parser} {t : Token} {k : TokenType}
    (ht : read_current p = .ok t) (hk : t.type ≠ k) :
    match_token p k = .ok (false, p) := by
  have hn := read_current_some ht
  unfold match_token
  split
  · exact absurd ‹_› hn
  · simp [ht, hk]

/-- The recurring tail "match a token of kind `k`, or report `m`". -/
theorem expect_extends {p q : Parser} {k : TokenType} {m : String}
    (h : ((match_token p k).bind fun r =>
            if r.1 = false then parser_error r.2 m else .ok r.2) = .ok q) :
    Extends p q := by
  obtain ⟨r, h1, h2⟩ := Outcome.bind_eq_ok.mp h
  have e1 := (match_token_extends h1).1
  split at h2
  · exact e1.trans (parser_error_extends h2).1
  · cases h2; exact e1

/-- A routine that opens with "match a keyword, or report `m`" and found no
keyword. -/
theorem KeywordStep.of_error {p q : Parser} {r : Bool × Parser} {m : String}
    (h1 : match_token p TOKEN_KEYWORD = .ok r) (hb : r.1 = false)
    (h2 : parser_error r.2 m = .ok q) : KeywordStep p q := by
  refine ⟨(match_token_extends h1).1.trans (parser_error_extends h2).1,
    fun _ ⟨t, ht, hk⟩ => ?_⟩
  rw [match_token_of_read ht hk] at h1
  cases h1
  simp at hb

/-- A routine that opens with "match a keyword" and went on from there. -/
theorem KeywordStep.of_rest {p q : Parser} {r : Bool × Parser}
    (h1 : match_token p TOKEN_KEYWORD = .ok r) (hb : ¬ r.1 = false)
    (h2 : Extends r.2 q) : KeywordStep p q := by
  obtain ⟨e1, a1⟩ := match_token_extends h1
  refine ⟨e1.trans h2, fun hc _ => ?_⟩
  have := a1 (by simpa using hb) hc
  have := h2.index_le
  omega

theorem parse_variable_declaration_step {p q : Parser}
    (h : parse_variable_declaration p = .ok q) : KeywordStep p q := by
  unfold parse_variable_declaration at h
  obtain ⟨r1, h0, hab⟩ := Outcome.bind_eq_ok.mp h
  split at hab
  · exact KeywordStep.of_error h0 ‹_› hab
  refine KeywordStep.of_rest h0 ‹_› ?_
  obtain ⟨r2, h1, h2⟩ := Outcome.bind_eq_ok.mp hab
  have e1 := (match_token_extends h1).1
  split at h2
  · exact e1.trans (parser_error_extends h2).1
  · obtain ⟨p3, h3, h4⟩ := Outcome.bind_eq_ok.mp h2
    refine e1.trans (Extends.trans ?_ (expect_extends h4))
    split at h3
    · cases h3; exact Extends.refl _
    · obtain ⟨t, -, h5⟩ := Outcome.bind_eq_ok.mp h3
      split at h5
      · exact (advance_token_extends _).trans (parse_expression_extends h5).1
      · cases h5; exact Extends.refl _

theorem parse_parameters_extends (n : Nat) :
    ∀ (p : Parser) (r : Bool × Parser), parse_parameters n p = .ok r → Extends p r.2 := by
  induction n with
  | zero => intro p r h; simp [parse_parameters] at h
  | succ n ih =>
    intro p r h
    rw [parse_parameters] at h
    split at h
    · cases h; exact Extends.refl _
    · obtain ⟨t, -, h1⟩ := Outcome.bind_eq_ok.mp h
      split at h1
      · cases h1; exact Extends.refl _
      · obtain ⟨r1, h2, h3⟩ := Outcome.bind_eq_ok.mp h1
        have e1 := (match_token_extends h2).1
        split at h3
        · obtain ⟨p2, h4, h5⟩ := Outcome.bind_eq_ok.mp h3
          cases h5
          exact e1.trans (parser_error_extends h4).1
        · obtain ⟨c, -, h4⟩ := Outcome.bind_eq_ok.mp h3
          split at h4
          · exact e1.trans ((advance_token_extends _).trans (ih _ _ h4))
          · exact e1.trans (ih _ _ h4)

/-! ## The mutually recursive routines keep `Extends` -/

theorem parse_block_statements_succ {n : Nat}
    (ihS : ∀ p q, parse_statement n p = .ok q → StatementStep p q)
    (ihL : ∀ p q, parse_block_statements n p = .ok q → Extends p q)
    {p q : Parser} (h : parse_block_statements (n + 1) p = .ok q) : Extends p q := by
  rw [parse_block_statements] at h
  split at h
  · cases h; exact Extends.refl _
  · obtain ⟨t, -, h1⟩ := Outcome.bind_eq_ok.mp h
    split at h1
    · cases h1; exact Extends.refl _
    · obtain ⟨p1, h2, h3⟩ := Outcome.bind_eq_ok.mp h1
      exact (ihS _ _ h2).1.trans (ihL _ _ h3)

theorem parse_block_succ {n : Nat}
    (ihL : ∀ p q, parse_block_statements n p = .ok q → Extends p q)
    {p q : Parser} (h : parse_block (n + 1) p = .ok q) : Extends p q := by
  rw [parse_block] at h
  obtain ⟨r1, h1, h2⟩ := Outcome.bind_eq_ok.mp h
  have e1 := (match_token_extends h1).1
  split at h2
  · exact e1.trans (parser_error_extends h2).1
  · obtain ⟨p2, h3, h4⟩ := Outcome.bind_eq_ok.mp h2
    exact e1.trans ((ihL _ _ h3).trans (expect_extends h4))

theorem parse_function_declaration_succ {n : Nat}
    (ihB : ∀ p q, parse_block n p = .ok q → Extends p q)
    {p q : Parser} (h : parse_function_declaration (n + 1) p = .ok q) :
    KeywordStep p q := by
  rw [parse_function_declaration] at h
  obtain ⟨r1, h0, hab⟩ := Outcome.bind_eq_ok.mp h
  split at hab
  · exact KeywordStep.of_error h0 ‹_› hab
  refine KeywordStep.of_rest h0 ‹_› ?_
  obtain ⟨r2, h1, h2⟩ := Outcome.bind_eq_ok.mp hab
  have e1 := (match_token_extends h1).1
  split at h2
  · exact e1.trans (parser_error_extends h2).1
  obtain ⟨r3, h3, h4⟩ := Outcome.bind_eq_ok.mp h2
  have e3 := (match_token_extends h3).1
  split at h4
  · exact e1.trans (e3.trans (parser_error_extends h4).1)
  obtain ⟨r4, h5, h6⟩ := Outcome.bind_eq_ok.mp h4
  have e5 := parse_parameters_extends n _ _ h5
  split at h6
  · cases h6; exact e1.trans (e3.trans e5)
  obtain ⟨r5, h7, h8⟩ := Outcome.bind_eq_ok.mp h6
  have e7 := (match_token_extends h7).1
  split at h8
  · exact e1.trans (e3.trans (e5.trans (e7.trans (parser_error_extends h8).1)))
  · exact e1.trans (e3.trans (e5.trans (e7.trans (ihB _ _ h8))))

theorem parse_while_statement_succ {n : Nat}
    (ihB : ∀ p q, parse_block n p = .ok q → Extends p q)
    {p q : Parser} (h : parse_while_statement (n + 1) p = .ok q) :
    KeywordStep p q := by
  rw [parse_while_statement] at h
  obtain ⟨r1, h0, hab⟩ := Outcome.bind_eq_ok.mp h
  split at hab
  · exact KeywordStep.of_error h0 ‹_› hab
  refine KeywordStep.of_rest h0 ‹_› ?_
  obtain ⟨r2, h1, h2⟩ := Outcome.bind_eq_ok.mp hab
  have e1 := (match_token_extends h1).1
  split at h2
  · exact e1.trans (parser_error_extends h2).1
  obtain ⟨p3, h3, h4⟩ := Outcome.bind_eq_ok.mp h2
  have e3 := (parse_expression_extends h3).1
  obtain ⟨r4, h5, h6⟩ := Outcome.bind_eq_ok.mp h4
  have e5 := (match_token_extends h5).1
  split at h6
  · exact e1.trans (e3.trans (e5.trans (parser_error_extends h6).1))
  · exact e1.trans (e3.trans (e5.trans (ihB _ _ h6)))

theorem parse_if_statement_succ {n : Nat}
    (ihB : ∀ p q, parse_block n p = .ok q → Extends p q)
    (ihI : ∀ p q, parse_if_statement n p = .ok q → KeywordStep p q)
    {p q : Parser} (h : parse_if_statement (n + 1) p = .ok q) :
    KeywordStep p q := by
  rw [parse_if_statement] at h
  obtain ⟨r1, h0, hab⟩ := Outcome.bind_eq_ok.mp h
  split at hab
  · exact KeywordStep.of_error h0 ‹_› hab
  refine KeywordStep.of_rest h0 ‹_› ?_
  obtain ⟨r2, h1, h2⟩ := Outcome.bind_eq_ok.mp hab
  have e1 := (match_token_extends h1).1
  split at h2
  · exact e1.trans (parser_error_extends h2).1
  obtain ⟨p3, h3, h4⟩ := Outcome.bind_eq_ok.mp h2
  have e3 := (parse_expression_extends h3).1
  obtain ⟨r4, h5, h6⟩ := Outcome.bind_eq_ok.mp h4
  have e5 := (match_token_extends h5).1
  split at h6
  · exact e1.trans (e3.trans (e5.trans (parser_error_extends h6).1))
  obtain ⟨p5, h7, h8⟩ := Outcome.bind_eq_ok.mp h6
  have e7 := ihB _ _ h7
  refine e1.trans (e3.trans (e5.trans (e7.trans ?_)))
  split at h8
  · cases h8; exact Extends.refl _
  obtain ⟨t, -, h9⟩ := Outcome.bind_eq_ok.mp h8
  split at h9
  · refine (advance_token_extends p5).trans ?_
    dsimp only at h9
    split at h9
    · exact ihB _ _ h9
    · obtain ⟨u, -, h10⟩ := Outcome.bind_eq_ok.mp h9
      split at h10
      · exact (ihI _ _ h10).1
      · exact ihB _ _ h10
  · cases h9; exact Extends.refl _

theorem parse_statement_succ {n : Nat}
    (ihF : ∀ p q, parse_function_declaration n p = .ok q → KeywordStep p q)
    (ihI : ∀ p q, parse_if_statement n p = .ok q → KeywordStep p q)
    (ihW : ∀ p q, parse_while_statement n p = .ok q → KeywordStep p q)
    {p q : Parser} (h : parse_statement (n + 1) p = .ok q) :
    StatementStep p q := by
  rw [parse_statement] at h
  split at h
  · cases h; exact ⟨Extends.refl _, fun _ hn => absurd ‹_› hn⟩
  obtain ⟨t, ht, h1⟩ := Outcome.bind_eq_ok.mp h
  have of_kw : ∀ {q}, t.type = TOKEN_KEYWORD → KeywordStep p q → StatementStep p q :=
    fun hk hs => ⟨hs.1, fun hc _ => hs.2 hc ⟨t, ht, hk⟩⟩
  split at h1
  · rename_i hk
    split at h1
    · exact of_kw hk (ihF _ _ h1)
    split at h1
    · exact of_kw hk (parse_variable_declaration_step h1)
    split at h1
    · exact of_kw hk (ihI _ _ h1)
    split at h1
    · exact of_kw hk (ihW _ _ h1)
    obtain ⟨p1, h2, h3⟩ := Outcome.bind_eq_ok.mp h1
    cases h3
    obtain ⟨e2, i2⟩ := parser_error_extends h2
    refine ⟨e2.trans (advance_token_extends _), fun hc hn => ?_⟩
    have hlt := consistent_lt hc hn
    rw [advance_token_index_of_lt (by rw [i2, e2.capacity_eq]; exact hlt), i2]
    exact Nat.lt_succ_self _
  · obtain ⟨p1, h2, h3⟩ := Outcome.bind_eq_ok.mp h1
    obtain ⟨e2, a2⟩ := parse_expression_extends h2
    have e3 := expect_extends h3
    refine ⟨e2.trans e3, fun hc hn => ?_⟩
    have := a2 hc hn
    have := e3.index_le
    omega

/-- Every mutually recursive routine, at every fuel, keeps `Extends`; the ones
entered on a keyword, and `parse_statement` on any token, move the cursor. -/
theorem routines_step (n : Nat) :
    (∀ p q, parse_statement n p = .ok q → StatementStep p q) ∧
    (∀ p q, parse_block_statements n p = .ok q → Extends p q) ∧
    (∀ p q, parse_block n p = .ok q → Extends p q) ∧
    (∀ p q, parse_function_declaration n p = .ok q → KeywordStep p q) ∧
    (∀ p q, parse_if_statement n p = .ok q → KeywordStep p q) ∧
    (∀ p q, parse_while_statement n p = .ok q → KeywordStep p q) := by
  induction n with
  | zero =>
    refine ⟨?_, ?_, ?_, ?_, ?_, ?_⟩ <;> intro p q h
    · simp [parse_statement] at h
    · simp [parse_block_statements] at h
    · simp [parse_block] at h
    · simp [parse_function_declaration] at h
    · simp [parse_if_statement] at h
    · simp [parse_while_statement] at h
  | succ n ih =>
    obtain ⟨ihS, ihL, ihB, ihF, ihI, ihW⟩ := ih
    exact ⟨fun _ _ => parse_statement_succ ihF ihI ihW,
      fun _ _ => parse_block_statements_succ ihS ihL,
      fun _ _ => parse_block_succ ihL,
      fun _ _ => parse_function_declaration_succ ihB,
      fun _ _ => parse_if_statement_succ ihB ihI,
      fun _ _ => parse_while_statement_succ ihB⟩

theorem parse_program_extends (n : Nat) :
    ∀ p q, parse_program n p = .ok q → Extends p q := by
  induction n with
  | zero => intro p q h; simp [parse_program] at h
  | succ n ih =>
    intro p q h
    rw [parse_program] at h
    split at h
    · cases h; exact Extends.refl _
    · obtain ⟨t, -, h1⟩ := Outcome.bind_eq_ok.mp h
      split at h1
      · obtain ⟨p1, h2, h3⟩ := Outcome.bind_eq_ok.mp h1
        exact ((routines_step n).1 _ _ h2).1.trans (ih _ _ h3)
      · cases h1; exact Extends.refl _

/-! ## Enough fuel: the routines halt -/

theorem read_current_halts (p : Parser) : read_current p ≠ .out_of_fuel := by
  unfold read_current
  split
  · simp
  · split <;> simp

theorem parser_error_halts (p : Parser) (m : String) :
    parser_error p m ≠ .out_of_fuel :=
  Outcome.bind_ne_out_of_fuel (read_current_halts p) (fun _ _ => by simp)

theorem match_token_halts (p : Parser) (k : TokenType) :
    match_token p k ≠ .out_of_fuel := by
  unfold match_token
  split
  · simp
  · refine Outcome.bind_ne_out_of_fuel (read_current_halts p) (fun t _ => ?_)
    split <;> simp

theorem expect_halts (p : Parser) (k : TokenType) (m : String) :
    ((match_token p k).bind fun r =>
      if r.1 = false then parser_error r.2 m else .ok r.2) ≠ .out_of_fuel := by
  refine Outcome.bind_ne_out_of_fuel (match_token_halts p k) (fun r _ => ?_)
  split
  · exact parser_error_halts _ _
  · simp

theorem parse_expression_halts (p : Parser) : parse_expression p ≠ .out_of_fuel := by
  unfold parse_expression
  split
  · simp
  · refine Outcome.bind_ne_out_of_fuel (read_current_halts p) (fun t _ => ?_)
    split
    · simp
    · simp
    · simp
    · simp
    · exact Outcome.bind_ne_out_of_fuel (parser_error_halts _ _) (fun _ _ => by simp)

theorem parse_variable_declaration_halts (p : Parser) :
    parse_variable_declaration p ≠ .out_of_fuel := by
  unfold parse_variable_declaration
  refine Outcome.bind_ne_out_of_fuel (match_token_halts _ _) (fun r1 _ => ?_)
  split
  · exact parser_error_halts _ _
  refine Outcome.bind_ne_out_of_fuel (match_token_halts _ _) (fun r2 _ => ?_)
  split
  · exact parser_error_halts _ _
  refine Outcome.bind_ne_out_of_fuel ?_ (fun p3 _ => expect_halts _ _ _)
  split
  · simp
  · refine Outcome.bind_ne_out_of_fuel (read_current_halts _) (fun t _ => ?_)
    split
    · exact parse_expression_halts _
    · simp

/-- A successful `match_token` on a consistent state found the cursor inside
the buffer and moved it by one. -/
theorem match_token_moved {p : Parser} {k : TokenType} {r : Bool × Parser}
    (h : match_token p k = .ok r) (hb : ¬ r.1 = false) (hc : Consistent p) :
    p.token_index < p.token_capacity ∧ r.2.token_index = p.token_index + 1 ∧
      r.2.token_capacity = p.token_capacity ∧ Consistent r.2 := by
  obtain ⟨e, a⟩ := match_token_extends h
  rcases match_token_spec h with ⟨hf, -⟩ | ⟨-, -, t, ht, -⟩
  · exact absurd hf hb
  · exact ⟨consistent_lt hc (read_current_some ht), a (by simpa using hb) hc,
      e.capacity_eq, e.consistent hc⟩

theorem parse_parameters_halts (n : Nat) :
    ∀ p : Parser, Consistent p → p.token_capacity - p.token_index + 1 ≤ n →
      parse_parameters n p ≠ .out_of_fuel := by
  induction n with
  | zero => intro p _ h; omega
  | succ n ih =>
    intro p hc hn
    rw [parse_parameters]
    split
    · simp
    refine Outcome.bind_ne_out_of_fuel (read_current_halts _) (fun t _ => ?_)
    split
    · simp
    refine Outcome.bind_ne_out_of_fuel (match_token_halts _ _) (fun r1 h1 => ?_)
    split
    · exact Outcome.bind_ne_out_of_fuel (parser_error_halts _ _) (fun _ _ => by simp)
    obtain ⟨hlt, hi, hcap, hc1⟩ := match_token_moved h1 ‹_› hc
    refine Outcome.bind_ne_out_of_fuel (read_current_halts _) (fun c _ => ?_)
    split
    · have e := advance_token_extends r1.2
      refine ih _ (e.consistent hc1) ?_
      have := e.index_le
      have := e.capacity_eq
      omega
    · exact ih _ hc1 (by omega)

theorem unconsumed_of_extends {p q : Parser} (e : Extends p q) :
    unconsumed q ≤ unconsumed p := by
  have := e.index_le
  have := e.capacity_eq
  unfold unconsumed
  omega

theorem unconsumed_of_moved {p q : Parser} (e : Extends p q)
    (hlt : p.token_index < p.token_capacity) (hi : p.token_index < q.token_index) :
    unconsumed q + 1 ≤ unconsumed p := by
  have := e.capacity_eq
  unfold unconsumed
  omega

theorem parse_block_statements_halts_succ {n : Nat}
    (ihS : HaltsFrom 3 parse_statement n)
    (ihL : HaltsFrom 4 parse_block_statements n) :
    HaltsFrom 4 parse_block_statements (n + 1) := by
  intro p hc hn
  rw [parse_block_statements]
  split
  · simp
  rename_i i hi
  refine Outcome.bind_ne_out_of_fuel (read_current_halts _) (fun t _ => ?_)
  split
  · simp
  refine Outcome.bind_ne_out_of_fuel (ihS p hc (by omega)) (fun p1 h1 => ?_)
  obtain ⟨e1, a1⟩ := (routines_step n).1 _ _ h1
  have hne : p.current_token ≠ none := by simp [hi]
  have := unconsumed_of_moved e1 (consistent_lt hc hne) (a1 hc hne)
  exact ihL p1 (e1.consistent hc) (by omega)

theorem parse_block_halts_succ {n : Nat}
    (ihL : HaltsFrom 4 parse_block_statements n) :
    HaltsFrom 1 parse_block (n + 1) := by
  intro p hc hn
  rw [parse_block]
  refine Outcome.bind_ne_out_of_fuel (match_token_halts _ _) (fun r1 h1 => ?_)
  split
  · exact parser_error_halts _ _
  obtain ⟨hlt, hi, hcap, hc1⟩ := match_token_moved h1 ‹_› hc
  refine Outcome.bind_ne_out_of_fuel (ihL _ hc1 ?_) (fun _ _ => expect_halts _ _ _)
  have := unconsumed_of_moved (match_token_extends h1).1 hlt (by omega)
  omega

theorem parse_function_declaration_halts_succ {n : Nat}
    (ihB : HaltsFrom 1 parse_block n) :
    HaltsFrom 2 parse_function_declaration (n + 1) := by
  intro p hc hn
  rw [parse_function_declaration]
  refine Outcome.bind_ne_out_of_fuel (match_token_halts _ _) (fun r1 h1 => ?_)
  have e1 := (match_token_extends h1).1
  split
  · exact parser_error_halts _ _
  refine Outcome.bind_ne_out_of_fuel (match_token_halts _ _) (fun r2 h2 => ?_)
  have e2 := e1.trans (match_token_extends h2).1
  split
  · exact parser_error_halts _ _
  refine Outcome.bind_ne_out_of_fuel (match_token_halts _ _) (fun r3 h3 => ?_)
  have e3 := e2.trans (match_token_extends h3).1
  split
  · exact parser_error_halts _ _
  have u3 := unconsumed_of_extends e3
  refine Outcome.bind_ne_out_of_fuel
    (parse_parameters_halts n _ (e3.consistent hc) ?_) (fun r4 h4 => ?_)
  · unfold unconsumed at u3 hn; omega
  have e4 := e3.trans (parse_parameters_extends n _ _ h4)
  split
  · simp
  refine Outcome.bind_ne_out_of_fuel (match_token_halts _ _) (fun r5 h5 => ?_)
  have e5 := e4.trans (match_token_extends h5).1
  split
  · exact parser_error_halts _ _
  have := unconsumed_of_extends e5
  exact ihB _ (e5.consistent hc) (by omega)

theorem parse_while_statement_halts_succ {n : Nat}
    (ihB : HaltsFrom 1 parse_block n) :
    HaltsFrom 2 parse_while_statement (n + 1) := by
  intro p hc hn
  rw [parse_while_statement]
  refine Outcome.bind_ne_out_of_fuel (match_token_halts _ _) (fun r1 h1 => ?_)
  have e1 := (match_token_extends h1).1
  split
  · exact parser_error_halts _ _
  refine Outcome.bind_ne_out_of_fuel (match_token_halts _ _) (fun r2 h2 => ?_)
  have e2 := e1.trans (match_token_extends h2).1
  split
  · exact parser_error_halts _ _
  refine Outcome.bind_ne_out_of_fuel (parse_expression_halts _) (fun p3 h3 => ?_)
  have e3 := e2.trans (parse_expression_extends h3).1
  refine Outcome.bind_ne_out_of_fuel (match_token_halts _ _) (fun r4 h4 => ?_)
  have e4 := e3.trans (match_token_extends h4).1
  split
  · exact parser_error_halts _ _
  have := unconsumed_of_extends e4
  exact ihB _ (e4.consistent hc) (by omega)

theorem parse_if_statement_halts_succ {n : Nat}
    (ihB : HaltsFrom 1 parse_block n)
    (ihI : HaltsFrom 2 parse_if_statement n) :
    HaltsFrom 2 parse_if_statement (n + 1) := by
  intro p hc hn
  rw [parse_if_statement]
  refine Outcome.bind_ne_out_of_fuel (match_token_halts _ _) (fun r1 h1 => ?_)
  have e1 := (match_token_extends h1).1
  split
  · exact parser_error_halts _ _
  obtain ⟨hlt, hi, -, -⟩ := match_token_moved h1 ‹_› hc
  refine Outcome.bind_ne_out_of_fuel (match_token_halts _ _) (fun r2 h2 => ?_)
  have e2 := (match_token_extends h2).1
  split
  · exact parser_error_halts _ _
  refine Outcome.bind_ne_out_of_fuel (parse_expression_halts _) (fun p3 h3 => ?_)
  have e3 := e2.trans (parse_expression_extends h3).1
  refine Outcome.bind_ne_out_of_fuel (match_token_halts _ _) (fun r4 h4 => ?_)
  have e4 := e3.trans (match_token_extends h4).1
  split
  · exact parser_error_halts _ _
  have u4 := unconsumed_of_extends (e1.trans e4)
  refine Outcome.bind_ne_out_of_fuel
    (ihB _ ((e1.trans e4).consistent hc) (by omega)) (fun p5 h5 => ?_)
  have e5 := e4.trans ((routines_step n).2.2.1 _ _ h5)
  split
  · simp
  refine Outcome.bind_ne_out_of_fuel (read_current_halts _) (fun t _ => ?_)
  split
  · have e6 := e5.trans (advance_token_extends p5)
    have hi6 := e6.index_le
    have u6 := unconsumed_of_moved (e1.trans e6) hlt (by omega)
    have c6 := (e1.trans e6).consistent hc
    dsimp only
    split
    · exact ihB _ c6 (by omega)
    · refine Outcome.bind_ne_out_of_fuel (read_current_halts _) (fun u _ => ?_)
      split
      · exact ihI _ c6 (by omega)
      · exact ihB _ c6 (by omega)
  · simp

theorem parse_statement_halts_succ {n : Nat}
    (ihF : HaltsFrom 2 parse_function_declaration n)
    (ihI : HaltsFrom 2 parse_if_statement n)
    (ihW : HaltsFrom 2 parse_while_statement n) :
    HaltsFrom 3 parse_statement (n + 1) := by
  intro p hc hn
  rw [parse_statement]
  split
  · simp
  refine Outcome.bind_ne_out_of_fuel (read_current_halts _) (fun t _ => ?_)
  split
  · split
    · exact ihF p hc (by omega)
    split
    · exact parse_variable_declaration_halts _
    split
    · exact ihI p hc (by omega)
    split
    · exact ihW p hc (by omega)
    exact Outcome.bind_ne_out_of_fuel (parser_error_halts _ _) (fun _ _ => by simp)
  · exact Outcome.bind_ne_out_of_fuel (parse_expression_halts _)
      (fun _ _ => expect_halts _ _ _)

/-- With fuel `4 * unconsumed + c` every mutually recursive routine halts on a
consistent state. -/
theorem routines_halt (n : Nat) :
    HaltsFrom 3 parse_statement n ∧ HaltsFrom 4 parse_block_statements n ∧
    HaltsFrom 1 parse_block n ∧ HaltsFrom 2 parse_function_declaration n ∧
    HaltsFrom 2 parse_if_statement n ∧ HaltsFrom 2 parse_while_statement n := by
  induction n with
  | zero =>
    refine ⟨?_, ?_, ?_, ?_, ?_, ?_⟩ <;> intro p _ h <;> omega
  | succ n ih =>
    obtain ⟨ihS, ihL, ihB, ihF, ihI, ihW⟩ := ih
    exact ⟨parse_statement_halts_succ ihF ihI ihW,
      parse_block_statements_halts_succ ihS ihL,
      parse_block_halts_succ ihL,
      parse_function_declaration_halts_succ ihB,
      parse_if_statement_halts_succ ihB ihI,
      parse_while_statement_halts_succ ihB⟩

theorem parse_program_halts (n : Nat) : HaltsFrom 4 parse_program n := by
  induction n with
  | zero => intro p _ h; omega
  | succ n ih =>
    intro p hc hn
    rw [parse_program]
    split
    · simp
    rename_i i hi
    refine Outcome.bind_ne_out_of_fuel (read_current_halts _) (fun t _ => ?_)
    split
    · refine Outcome.bind_ne_out_of_fuel ((routines_halt n).1 p hc (by omega))
        (fun p1 h1 => ?_)
      obtain ⟨e1, a1⟩ := (routines_step n).1 _ _ h1
      have hne : p.current_token ≠ none := by simp [hi]
      have := unconsumed_of_moved e1 (consistent_lt hc hne) (a1 hc hne)
      exact ih p1 (e1.consistent hc) (by omega)
    · simp

/-! ## More fuel never changes a result -/

theorem Outcome.Refines.self {α : Type} (x : Outcome α) : x.Refines x := Or.inr rfl

theorem Outcome.Refines.bind {α β : Type} {x y : Outcome α} {f g : α → Outcome β}
    (hx : x.Refines y) (hf : ∀ a, (f a).Refines (g a)) :
    (x.bind f).Refines (y.bind g) := by
  rcases hx with rfl | rfl
  · left; rfl
  · cases x with
    | ok a => simpa using hf a
    | fault e => right; rfl
    | out_of_fuel => left; rfl

theorem Outcome.Refines.bind_left {α β : Type} (x : Outcome α) {f g : α → Outcome β}
    (hf : ∀ a, (f a).Refines (g a)) : (x.bind f).Refines (x.bind g) :=
  Outcome.Refines.bind (Outcome.Refines.self x) hf

theorem Outcome.Refines.ite {α : Type} {c : Prop} [Decidable c] {a a1 b b1 : Outcome α}
    (ha : a.Refines a1) (hb : b.Refines b1) :
    (if c then a else b).Refines (if c then a1 else b1) := by
  split
  · exact ha
  · exact hb

theorem parse_parameters_mono (n : Nat) :
    ∀ p : Parser, (parse_parameters n p).Refines (parse_parameters (n + 1) p) := by
  induction n with
  | zero => intro p; left; rfl
  | succ n ih =>
    intro p
    conv_lhs => rw [parse_parameters]
    conv_rhs => rw [parse_parameters]
    cases p.current_token with
    | none => exact Outcome.Refines.self _
    | some i =>
      refine Outcome.Refines.bind_left _ (fun t => Outcome.Refines.ite
        (Outcome.Refines.self _) (Outcome.Refines.bind_left _ (fun r1 =>
          Outcome.Refines.ite (Outcome.Refines.self _)
            (Outcome.Refines.bind_left _ (fun c =>
              Outcome.Refines.ite (ih _) (ih _))))))

theorem parse_block_statements_mono_succ {n : Nat}
    (ihS : ∀ p, (parse_statement n p).Refines (parse_statement (n + 1) p))
    (ihL : ∀ p, (parse_block_statements n p).Refines (parse_block_statements (n + 1) p))
    (p : Parser) :
    (parse_block_statements (n + 1) p).Refines (parse_block_statements (n + 1 + 1) p) := by
  conv_lhs => rw [parse_block_statements]
  conv_rhs => rw [parse_block_statements]
  cases p.current_token with
  | none => exact Outcome.Refines.self _
  | some i =>
    exact Outcome.Refines.bind_left _ (fun t => Outcome.Refines.ite
      (Outcome.Refines.self _) (Outcome.Refines.bind (ihS _) ihL))

theorem parse_block_mono_succ {n : Nat}
    (ihL : ∀ p, (parse_block_statements n p).Refines (parse_block_statements (n + 1) p))
    (p : Parser) : (parse_block (n + 1) p).Refines (parse_block (n + 1 + 1) p) := by
  conv_lhs => rw [parse_block]
  conv_rhs => rw [parse_block]
  exact Outcome.Refines.bind_left _ (fun r1 => Outcome.Refines.ite
    (Outcome.Refines.self _)
    (Outcome.Refines.bind (ihL _) (fun _ => Outcome.Refines.self _)))

theorem parse_function_declaration_mono_succ {n : Nat}
    (ihB : ∀ p, (parse_block n p).Refines (parse_block (n + 1) p))
    (p : Parser) :
    (parse_function_declaration (n + 1) p).Refines
      (parse_function_declaration (n + 1 + 1) p) := by
  conv_lhs => rw [parse_function_declaration]
  conv_rhs => rw [parse_function_declaration]
  exact Outcome.Refines.bind_left _ (fun r1 => Outcome.Refines.ite
    (Outcome.Refines.self _) (Outcome.Refines.bind_left _ (fun r2 =>
      Outcome.Refines.ite (Outcome.Refines.self _)
        (Outcome.Refines.bind_left _ (fun r3 =>
          Outcome.Refines.ite (Outcome.Refines.self _)
            (Outcome.Refines.bind (parse_parameters_mono n _) (fun r4 =>
              Outcome.Refines.ite (Outcome.Refines.self _)
                (Outcome.Refines.bind_left _ (fun r5 =>
                  Outcome.Refines.ite (Outcome.Refines.self _) (ihB _))))))))))

theorem parse_while_statement_mono_succ {n : Nat}
    (ihB : ∀ p, (parse_block n p).Refines (parse_block (n + 1) p))
    (p : Parser) :
    (parse_while_statement (n + 1) p).Refines (parse_while_statement (n + 1 + 1) p) := by
  conv_lhs => rw [parse_while_statement]
  conv_rhs => rw [parse_while_statement]
  exact Outcome.Refines.bind_left _ (fun r1 => Outcome.Refines.ite
    (Outcome.Refines.self _) (Outcome.Refines.bind_left _ (fun r2 =>
      Outcome.Refines.ite (Outcome.Refines.self _)
        (Outcome.Refines.bind_left _ (fun p3 =>
          Outcome.Refines.bind_left _ (fun r4 =>
            Outcome.Refines.ite (Outcome.Refines.self _) (ihB _)))))))

theorem parse_if_statement_mono_succ {n : Nat}
    (ihB : ∀ p, (parse_block n p).Refines (parse_block (n + 1) p))
    (ihI : ∀ p, (parse_if_statement n p).Refines (parse_if_statement (n + 1) p))
    (p : Parser) :
    (parse_if_statement (n + 1) p).Refines (parse_if_statement (n + 1 + 1) p) := by
  conv_lhs => rw [parse_if_statement]
  conv_rhs => rw [parse_if_statement]
  refine Outcome.Refines.bind_left _ (fun r1 => Outcome.Refines.ite
    (Outcome.Refines.self _) (Outcome.Refines.bind_left _ (fun r2 =>
      Outcome.Refines.ite (Outcome.Refines.self _)
        (Outcome.Refines.bind_left _ (fun p3 =>
          Outcome.Refines.bind_left _ (fun r4 =>
            Outcome.Refines.ite (Outcome.Refines.self _)
              (Outcome.Refines.bind (ihB _) (fun p5 => ?_))))))))
  cases p5.current_token with
  | none => exact Outcome.Refines.self _
  | some i =>
    refine Outcome.Refines.bind_left _ (fun t => Outcome.Refines.ite ?_
      (Outcome.Refines.self _))
    dsimp only
    cases (advance_token p5).current_token with
    | none => exact ihB _
    | some j =>
      exact Outcome.Refines.bind_left _ (fun u => Outcome.Refines.ite (ihI _) (ihB _))

theorem parse_statement_mono_succ {n : Nat}
    (ihF : ∀ p, (parse_function_declaration n p).Refines
      (parse_function_declaration (n + 1) p))
    (ihI : ∀ p, (parse_if_statement n p).Refines (parse_if_statement (n + 1) p))
    (ihW : ∀ p, (parse_while_statement n p).Refines (parse_while_statement (n + 1) p))
    (p : Parser) :
    (parse_statement (n + 1) p).Refines (parse_statement (n + 1 + 1) p) := by
  conv_lhs => rw [parse_statement]
  conv_rhs => rw [parse_statement]
  cases p.current_token with
  | none => exact Outcome.Refines.self _
  | some i =>
    exact Outcome.Refines.bind_left _ (fun t => Outcome.Refines.ite
      (Outcome.Refines.ite (ihF _) (Outcome.Refines.ite (Outcome.Refines.self _)
        (Outcome.Refines.ite (ihI _) (Outcome.Refines.ite (ihW _)
          (Outcome.Refines.self _)))))
      (Outcome.Refines.self _))

theorem routines_mono (n : Nat) :
    (∀ p, (parse_statement n p).Refines (parse_statement (n + 1) p)) ∧
    (∀ p, (parse_block_statements n p).Refines (parse_block_statements (n + 1) p)) ∧
    (∀ p, (parse_block n p).Refines (parse_block (n + 1) p)) ∧
    (∀ p, (parse_function_declaration n p).Refines
      (parse_function_declaration (n + 1) p)) ∧
    (∀ p, (parse_if_statement n p).Refines (parse_if_statement (n + 1) p)) ∧
    (∀ p, (parse_while_statement n p).Refines (parse_while_statement (n + 1) p)) := by
  induction n with
  | zero =>
    refine ⟨?_, ?_, ?_, ?_, ?_, ?_⟩ <;> intro p <;> left <;> rfl
  | succ n ih =>
    obtain ⟨ihS, ihL, ihB, ihF, ihI, ihW⟩ := ih
    exact ⟨parse_statement_mono_succ ihF ihI ihW,
      parse_block_statements_mono_succ ihS ihL,
      parse_block_mono_succ ihL,
      parse_function_declaration_mono_succ ihB,
      parse_if_statement_mono_succ ihB ihI,
      parse_while_statement_mono_succ ihB⟩

theorem parse_program_mono (n : Nat) :
    ∀ p : Parser, (parse_program n p).Refines (parse_program (n + 1) p) := by
  induction n with
  | zero => intro p; left; rfl
  | succ n ih =>
    intro p
    conv_lhs => rw [parse_program]
    conv_rhs => rw [parse_program]
    cases p.current_token with
    | none => exact Outcome.Refines.self _
    | some i =>
      exact Outcome.Refines.bind_left _ (fun t => Outcome.Refines.ite
        (Outcome.Refines.bind ((routines_mono n).1 _) ih) (Outcome.Refines.self _))

/-- A result reached with fuel `n` is reached with any larger fuel. -/
theorem fuel_mono {α : Type} {f : Nat → Parser → Outcome α}
    (hf : ∀ n p, (f n p).Refines (f (n + 1) p)) {n m : Nat} (hnm : n ≤ m)
    {p : Parser} {r : Outcome α} (hr : r ≠ .out_of_fuel) (h : f n p = r) :
    f m p = r := by
  induction hnm with
  | refl => exact h
  | step _ ih =>
    rcases hf _ p with h1 | h1
    · rw [ih] at h1; exact absurd h1 hr
    · rw [← h1]; exact ih

/-! ## Properties of the engine -/

theorem after_every_extends (p : Parser) : AfterEvery Extends p :=
  ⟨advance_token_extends p,
    fun _ _ h => (match_token_extends h).1,
    fun _ _ h => (parser_error_extends h).1,
    fun _ h => (parse_expression_extends h).1,
    fun _ h => (parse_variable_declaration_step h).1,
    fun n _ h => parse_parameters_extends n _ _ h,
    fun n _ h => ((routines_step n).1 _ _ h).1,
    fun n _ h => (routines_step n).2.1 _ _ h,
    fun n _ h => (routines_step n).2.2.1 _ _ h,
    fun n _ h => ((routines_step n).2.2.2.1 _ _ h).1,
    fun n _ h => ((routines_step n).2.2.2.2.1 _ _ h).1,
    fun n _ h => ((routines_step n).2.2.2.2.2 _ _ h).1,
    fun n _ h => parse_program_extends n _ _ h⟩

theorem AfterEvery.imp {P Q : Parser → Parser → Prop} {p : Parser}
    (h : ∀ q, P p q → Q p q) (hp : AfterEvery P p) : AfterEvery Q p :=
  ⟨h _ hp.1,
    fun k r e => h _ (hp.2.1 k r e),
    fun m q e => h _ (hp.2.2.1 m q e),
    fun q e => h _ (hp.2.2.2.1 q e),
    fun q e => h _ (hp.2.2.2.2.1 q e),
    fun n r e => h _ (hp.2.2.2.2.2.1 n r e),
    fun n q e => h _ (hp.2.2.2.2.2.2.1 n q e),
    fun n q e => h _ (hp.2.2.2.2.2.2.2.1 n q e),
    fun n q e => h _ (hp.2.2.2.2.2.2.2.2.1 n q e),
    fun n q e => h _ (hp.2.2.2.2.2.2.2.2.2.1 n q e),
    fun n q e => h _ (hp.2.2.2.2.2.2.2.2.2.2.1 n q e),
    fun n q e => h _ (hp.2.2.2.2.2.2.2.2.2.2.2.1 n q e),
    fun n q e => h _ (hp.2.2.2.2.2.2.2.2.2.2.2.2 n q e)⟩

theorem start_consistent (ts : List Token) : Consistent (start ts) := by
  unfold Consistent peek_token start
  by_cases h : ts.length = 0 <;> simp [h]

theorem start_unconsumed (ts : List Token) : unconsumed (start ts) = ts.length := rfl

/-- C1. For every token buffer `ts`, `parse_program` started on `ts` halts:
there is a result, not "out of fuel", that every fuel from `4 * length + 4` on
produces; the same holds from every state whose cached current token is the
one under the cursor.  The measure behind it: between entry and return of
`parse_statement` on a present token, hence across every iteration of the
statement loops, the number of unconsumed tokens strictly decreases. -/
theorem C1_parse_program_terminates (ts : List Token) :
    (∃ r : Outcome Parser, r ≠ .out_of_fuel ∧
      ∀ n, 4 * ts.length + 4 ≤ n → parse_program n (start ts) = r) ∧
    (∀ p, Consistent p → ∃ r : Outcome Parser, r ≠ .out_of_fuel ∧
      ∀ n, 4 * unconsumed p + 4 ≤ n → parse_program n p = r) ∧
    (∀ n p q, Consistent p → p.current_token ≠ none → parse_statement n p = .ok q →
      unconsumed q < unconsumed p) := by
  have general : ∀ p, Consistent p → ∃ r : Outcome Parser, r ≠ .out_of_fuel ∧
      ∀ n, 4 * unconsumed p + 4 ≤ n → parse_program n p = r := by
    intro p hc
    have hh : parse_program (4 * unconsumed p + 4) p ≠ .out_of_fuel :=
      parse_program_halts _ _ hc (le_refl _)
    exact ⟨_, hh, fun n hn => fuel_mono parse_program_mono hn hh rfl⟩
  refine ⟨general (start ts) (start_consistent ts), general, ?_⟩
  intro n p q hc hn h
  obtain ⟨e, a⟩ := (routines_step n).1 _ _ h
  have := unconsumed_of_moved e (consistent_lt hc hn) (a hc hn)
  omega

/-- C1, on the empty buffer and on a buffer of one malformed token. -/
theorem C1_parse_program_terminates_witness :
    parse_program 4 (start []) = .ok (start []) ∧
    (∃ r : Outcome Parser, r ≠ .out_of_fuel ∧
      ∀ n, 8 ≤ n → parse_program n (start [operator "+"]) = r) :=
  ⟨rfl, (C1_parse_program_terminates [operator "+"]).1⟩

theorem parser_error_of_read {p : Parser} {t : Token} (ht : read_current p = .ok t)
    (m : String) :
    parser_error p m = .ok { p with
      stderr := p.stderr ++ [⟨t.line, t.column, m⟩]
      error_count := p.error_count + 1 } := by
  simp [parser_error, ht]

/-- C6. On a parser state whose current token is a keyword other than
`function`, `var`, `let`, `const`, `if`, `while`, `parse_statement` returns
with one more error, the diagnostic "Unexpected keyword" at that token, and
the cursor one further.  In particular `parse_program` on the buffer holding
the single keyword `return` ends with `error_count = 1` and the cursor at 1. -/
theorem C6_unexpected_keyword :
    (∀ (p : Parser) (t : Token) (n : Nat), Consistent p → read_current p = .ok t →
      t.type = TOKEN_KEYWORD →
      t.value ∉ ["function", "var", "let", "const", "if", "while"] →
      ∃ q, parse_statement (n + 1) p = .ok q ∧
        q.error_count = p.error_count + 1 ∧
        q.token_index = p.token_index + 1 ∧
        q.stderr = p.stderr ++ [⟨t.line, t.column, "Unexpected keyword"⟩]) ∧
    (∀ (line column : Int) (n : Nat), 2 ≤ n →
      ∃ q, parse_program n (start [⟨TOKEN_KEYWORD, "return", line, column⟩]) = .ok q ∧
        q.error_count = 1 ∧ q.token_index = 1 ∧
        q.stderr = [⟨line, column, "Unexpected keyword"⟩]) := by
  constructor
  · intro p t n hc ht hk hv
    have hn := read_current_some ht
    have hlt := consistent_lt hc hn
    obtain ⟨i, hi⟩ := Option.ne_none_iff_exists'.mp hn
    simp only [List.mem_cons, List.mem_singleton, List.not_mem_nil, or_false, not_or] at hv
    obtain ⟨v1, v2, v3, v4, v5, v6⟩ := hv
    refine ⟨advance_token { p with
      stderr := p.stderr ++ [⟨t.line, t.column, "Unexpected keyword"⟩]
      error_count := p.error_count + 1 }, ?_, ?_, ?_, ?_⟩
    · rw [parse_statement]
      simp [hi, ht, hk, v1, v2, v3, v4, v5, v6, parser_error_of_read ht]
    · simp [advance_token, hlt]
    · simp [advance_token, hlt]
    · simp [advance_token, hlt]
  · intro line column n hn
    refine ⟨_, fuel_mono parse_program_mono hn (by simp) rfl, rfl, rfl, rfl⟩

/-- C6, on the buffer holding the single keyword `return`. -/
theorem C6_unexpected_keyword_witness :
    ∃ q, parse_statement 1 (start [keyword "return"]) = .ok q ∧
      q.error_count = 0 + 1 ∧ q.token_index = 0 + 1 ∧
      q.stderr = [] ++ [⟨1, 1, "Unexpected keyword"⟩] :=
  C6_unexpected_keyword.1 (start [keyword "return"]) (keyword "return") 0
    (by decide) rfl rfl (by decide)

/-- C7. From a state whose cursor is within the buffer, every operation that
returns leaves the cursor at or after where it was and still within the
buffer, whose length is unchanged. -/
theorem C7_cursor_monotone_bounded (p : Parser)
    (h : p.token_index ≤ p.token_capacity) : AfterEvery CursorKept p :=
  AfterEvery.imp
    (fun _ e => ⟨e.index_le, e.index_bound h, e.capacity_eq⟩)
    (after_every_extends p)

/-- C7, on the buffer `x ;`: `parse_program`, `parse_statement` and
`parse_expression` return there, with the cursor at 2, 2 and 1 of 2. -/
theorem C7_cursor_monotone_bounded_witness :
    (start [identifier "x", punctuation ";"]).token_index
      ≤ (start [identifier "x", punctuation ";"]).token_capacity ∧
    parse_program 3 (start [identifier "x", punctuation ";"])
      = .ok (skip 2 (start [identifier "x", punctuation ";"])) ∧
    CursorKept (start [identifier "x", punctuation ";"])
      (skip 2 (start [identifier "x", punctuation ";"])) ∧
    (skip 2 (start [identifier "x", punctuation ";"])).token_index = 2 ∧
    (skip 2 (start [identifier "x", punctuation ";"])).token_capacity = 2 ∧
    parse_expression (start [identifier "x", punctuation ";"])
      = .ok (skip 1 (start [identifier "x", punctuation ";"])) ∧
    CursorKept (start [identifier "x", punctuation ";"])
      (skip 1 (start [identifier "x", punctuation ";"])) ∧
    CursorKept (start [identifier "x", punctuation ";"])
      (advance_token (start [identifier "x", punctuation ";"])) :=
  ⟨by decide, rfl,
    (C7_cursor_monotone_bounded (start [identifier "x", punctuation ";"])
      (by decide)).2.2.2.2.2.2.2.2.2.2.2.2 3 _ rfl,
    rfl, rfl, rfl,
    (C7_cursor_monotone_bounded (start [identifier "x", punctuation ";"])
      (by decide)).2.2.2.1 _ rfl,
    (C7_cursor_monotone_bounded (start [identifier "x", punctuation ";"])
      (by decide)).1⟩

/-- C8. Every operation that returns leaves `error_count` equal to its value
on entry plus the number of diagnostics written meanwhile, so never smaller. -/
theorem C8_error_accounting (p : Parser) : AfterEvery Accounted p :=
  AfterEvery.imp
    (fun q e => by
      obtain ⟨ds, h1, h2⟩ := e.emitted
      exact ⟨⟨ds, h1, h2⟩, by omega⟩)
    (after_every_extends p)

/-- C9. If the cached current token is the one under the cursor on entry, it
is again the one under the cursor after every operation that returns. -/
theorem C9_current_token_consistent (p : Parser) (h : Consistent p) :
    AfterEvery (fun _ q => Consistent q) p :=
  AfterEvery.imp (fun _ e => e.consistent h) (after_every_extends p)

/-- C9, on the buffer `x ;`: `parse_program` returns there with the cursor at
the end and the current token `NULL`, `parse_expression` with the cursor at 1
and the current token the one at index 1. -/
theorem C9_current_token_consistent_witness :
    Consistent (start [identifier "x", punctuation ";"]) ∧
    parse_program 3 (start [identifier "x", punctuation ";"])
      = .ok (skip 2 (start [identifier "x", punctuation ";"])) ∧
    Consistent (skip 2 (start [identifier "x", punctuation ";"])) ∧
    (skip 2 (start [identifier "x", punctuation ";"])).current_token = none ∧
    parse_expression (start [identifier "x", punctuation ";"])
      = .ok (skip 1 (start [identifier "x", punctuation ";"])) ∧
    Consistent (skip 1 (start [identifier "x", punctuation ";"])) ∧
    (skip 1 (start [identifier "x", punctuation ";"])).current_token = some 1 ∧
    Consistent (advance_token (start [identifier "x", punctuation ";"])) :=
  ⟨by decide, rfl,
    (C9_current_token_consistent (start [identifier "x", punctuation ";"])
      (by decide)).2.2.2.2.2.2.2.2.2.2.2.2 3 _ rfl,
    rfl, rfl,
    (C9_current_token_consistent (start [identifier "x", punctuation ";"])
      (by decide)).2.2.2.1 _ rfl,
    rfl,
    (C9_current_token_consistent (start [identifier "x", punctuation ";"])
      (by decide)).1⟩

/-- C10. On a parser state, whose cached current token is the one under the
cursor, `match_token` returns true exactly when the current token exists and
has the asked kind; then the cursor has moved by one and `error_count` is
unchanged.  It returns false on an absent token and on a token of another
kind, and whenever it returns false the state is unchanged. -/
theorem C10_match_token_contract (p : Parser) (k : TokenType) (hc : Consistent p) :
    ((∃ q, match_token p k = .ok (true, q)) ↔
      ∃ t, read_current p = .ok t ∧ t.type = k) ∧
    (∀ q, match_token p k = .ok (true, q) →
      q.token_index = p.token_index + 1 ∧ q.error_count = p.error_count) ∧
    (p.current_token = none → match_token p k = .ok (false, p)) ∧
    (∀ t, read_current p = .ok t → t.type ≠ k → match_token p k = .ok (false, p)) ∧
    (∀ q, match_token p k = .ok (false, q) → q = p) := by
  refine ⟨⟨fun ⟨q, h⟩ => ?_, fun ⟨t, ht, hk⟩ => ⟨_, match_token_of_read ht hk⟩⟩,
    fun q h => ?_, fun h => ?_, fun t ht hk => match_token_of_read_ne ht hk,
    fun q h => ?_⟩
  · rcases match_token_spec h with ⟨hf, -⟩ | ⟨-, -, t, ht, hk⟩
    · simp at hf
    · exact ⟨t, ht, hk⟩
  · obtain ⟨e, a⟩ := match_token_extends h
    obtain ⟨ds, h1, h2⟩ := e.emitted
    refine ⟨a rfl hc, ?_⟩
    rcases match_token_spec h with ⟨hf, -⟩ | ⟨-, hq, -⟩
    · simp at hf
    · simp only at hq
      rw [hq, advance_token]
      split <;> rfl
  · simp [match_token, h]
  · rcases match_token_spec h with ⟨-, hq⟩ | ⟨hf, -⟩
    · exact hq
    · simp at hf

/-- C10, on the state at the start of the buffer `x +`. -/
theorem C10_match_token_contract_witness :
    match_token (start [identifier "x", operator "+"]) TOKEN_IDENTIFIER
      = .ok (true, advance_token (start [identifier "x", operator "+"])) ∧
    (advance_token (start [identifier "x", operator "+"])).token_index = 0 + 1 ∧
    (advance_token (start [identifier "x", operator "+"])).error_count = 0 :=
  ⟨rfl, (C10_match_token_contract (start [identifier "x", operator "+"])
    TOKEN_IDENTIFIER (by decide)).2.1 _ rfl⟩

/-! ## Running the routines over known tokens -/

theorem skip_skip (a b : Nat) (p : Parser) :
    skip a (skip b p) = skip (b + a) p := by
  simp [skip, peek_token, Nat.add_assoc]

theorem Remaining.skip_zero {p : Parser} {ts : List Token} (h : Remaining p ts) :
    skip 0 p = p := by
  have hc : p.current_token = peek_token p := h.1
  simp only [skip, Nat.add_zero]
  rw [show ({ p with token_index := p.token_index } : Parser) = p from rfl, ← hc]

theorem Remaining.exhausted {p : Parser} (h : Remaining p []) : p.current_token = none := by
  obtain ⟨hc, hcap, hd⟩ := h
  have : p.tokens.length ≤ p.token_index := List.drop_eq_nil_iff.mp hd
  rw [hc, peek_token, if_pos (by omega)]

theorem Remaining.lt {p : Parser} {t : Token} {ts : List Token}
    (h : Remaining p (t :: ts)) : p.token_index < p.token_capacity := by
  obtain ⟨hc, hcap, hd⟩ := h
  by_contra hn
  have : p.tokens.drop p.token_index = [] := List.drop_eq_nil_iff.mpr (by omega)
  rw [this] at hd
  cases hd

theorem Remaining.current {p : Parser} {t : Token} {ts : List Token}
    (h : Remaining p (t :: ts)) : p.current_token = some p.token_index := by
  have hlt := h.lt
  rw [h.1, peek_token, if_neg (by omega)]

theorem Remaining.read {p : Parser} {t : Token} {ts : List Token}
    (h : Remaining p (t :: ts)) : read_current p = .ok t := by
  have hg : p.tokens[p.token_index]? = some t := by
    have := List.getElem?_drop (L := p.tokens) (i := p.token_index) (j := 0)
    rw [h.2.2] at this
    simpa using this.symm
  simp [read_current, h.current, hg]

theorem Remaining.advance {p : Parser} {t : Token} {ts : List Token}
    (h : Remaining p (t :: ts)) : advance_token p = skip 1 p := by
  simp [advance_token, h.lt, skip]

theorem Remaining.tail {p : Parser} {t : Token} {ts : List Token}
    (h : Remaining p (t :: ts)) : Remaining (skip 1 p) ts := by
  refine ⟨rfl, h.2.1, ?_⟩
  show p.tokens.drop (p.token_index + 1) = ts
  rw [← List.drop_drop, h.2.2]
  rfl

theorem Remaining.skip_length {p : Parser} (xs : List Token) {ys : List Token}
    (h : Remaining p (xs ++ ys)) : Remaining (skip xs.length p) ys := by
  induction xs generalizing p with
  | nil => rw [List.length_nil, h.skip_zero]; exact h
  | cons x xs ih =>
    have := ih (p := skip 1 p) h.tail
    rw [skip_skip] at this
    rw [List.length_cons, Nat.add_comm]
    exact this

theorem Remaining.run_match_token {p : Parser} {t : Token} {ts : List Token}
    (h : Remaining p (t :: ts)) {k : TokenType} (hk : t.type = k) :
    match_token p k = .ok (true, skip 1 p) := by
  rw [match_token_of_read h.read hk, h.advance]

theorem Remaining.run_parse_expression {p : Parser} {t : Token} {ts : List Token}
    (h : Remaining p (t :: ts)) (he : IsExpression t) :
    parse_expression p = .ok (skip 1 p) := by
  unfold parse_expression
  rw [h.current]
  simp only [h.read, Outcome.bind_ok, h.advance]
  rcases he with he | he | he | he <;> rw [he]

/-! ## Completeness of the recogniser -/

theorem skip_congr {a b : Nat} (h : a = b) (p : Parser) : skip a p = skip b p := by
  rw [h]

theorem complete_while {w l e r : Token} {b : List Token}
    (hw : IsKeyword "while" w) (hl : IsPunctuation "(" l) (he : IsExpression e)
    (hr : IsPunctuation ")" r) (ihb : Complete .block b) :
    Complete .statement (w :: l :: e :: r :: b) := by
  intro p rest hR _
  have R1 := hR.tail
  have R2 := R1.tail
  have R3 := R2.tail
  have R4 := R3.tail
  obtain ⟨nb, hb⟩ := ihb _ rest R4
  refine ⟨nb + 2, fun m hm => ?_⟩
  obtain ⟨m, rfl⟩ : ∃ k, m = k + 2 := ⟨m - 2, by omega⟩
  rw [parse_statement]
  simp only [hR.current, hR.read, Outcome.bind_ok]
  simp [hw.1, hw.2]
  rw [parse_while_statement]
  simp [hR.run_match_token hw.1, R1.run_match_token hl.1,
    R2.run_parse_expression he, R3.run_match_token hr.1]
  rw [hb m (by omega)]
  simp only [skip_skip]
  exact congrArg _ (skip_congr (by simp; omega) p)

theorem Derives.block_head {b : List Token} (h : Derives .block b) :
    ∃ l b1, b = l :: b1 ∧ IsPunctuation "\x7b" l := by
  cases h with
  | block hl _ _ => exact ⟨_, _, rfl, hl⟩

theorem Derives.if_head {s : List Token} (h : Derives .if_statement s) :
    ∃ i s1, s = i :: s1 ∧ IsKeyword "if" i := by
  cases h with
  | if_then hi => exact ⟨_, _, rfl, hi⟩
  | if_else hi => exact ⟨_, _, rfl, hi⟩
  | if_else_if hi => exact ⟨_, _, rfl, hi⟩

theorem Derives.statement_head {s : List Token} (h : Derives .statement s) :
    ∃ t s1, s = t :: s1 ∧ StartsStatement t := by
  cases h with
  | expression_statement he _ => exact ⟨_, _, rfl, Or.inl he⟩
  | function_declaration hf => exact ⟨_, _, rfl, Or.inr ⟨hf.1, by simp [hf.2]⟩⟩
  | function_declaration_parameters hf =>
    exact ⟨_, _, rfl, Or.inr ⟨hf.1, by simp [hf.2]⟩⟩
  | variable_declaration hk =>
    refine ⟨_, _, rfl, Or.inr ?_⟩
    rcases hk with hk | hk | hk <;> exact ⟨hk.1, by simp [hk.2]⟩
  | variable_declaration_initialised hk =>
    refine ⟨_, _, rfl, Or.inr ?_⟩
    rcases hk with hk | hk | hk <;> exact ⟨hk.1, by simp [hk.2]⟩
  | if_statement_statement hs =>
    obtain ⟨i, s1, rfl, hi⟩ := hs.if_head
    exact ⟨_, _, rfl, Or.inr ⟨hi.1, by simp [hi.2]⟩⟩
  | while_statement hw => exact ⟨_, _, rfl, Or.inr ⟨hw.1, by simp [hw.2]⟩⟩

theorem StartsStatement.not_keyword_else {t : Token} (h : StartsStatement t) :
    ¬ (t.type = TOKEN_KEYWORD ∧ t.value = "else") := by
  rintro ⟨hk, hv⟩
  rcases h with (he | he | he | he) | ⟨-, hf | hf | hf | hf | hf | hf⟩
  all_goals simp_all

theorem StartsStatement.not_punctuation {t : Token} (h : StartsStatement t) :
    t.type ≠ TOKEN_PUNCTUATION := by
  intro hk
  rcases h with (he | he | he | he) | ⟨hf, -⟩
  all_goals simp_all

theorem StartsStatement.not_eof {t : Token} (h : StartsStatement t) :
    t.type ≠ TOKEN_EOF := by
  intro hk
  rcases h with (he | he | he | he) | ⟨hf, -⟩
  all_goals simp_all

theorem IsExpression.not_keyword {t : Token} (h : IsExpression t) :
    t.type ≠ TOKEN_KEYWORD := by
  intro hk
  rcases h with he | he | he | he
  all_goals simp_all

theorem NotElse.empty : NotElse [] := fun _ _ h => by cases h

theorem NotElse.of_punctuation {r : Token} {rest : List Token}
    (h : r.type = TOKEN_PUNCTUATION) : NotElse (r :: rest) := by
  intro t rest1 e hk
  cases e
  simp [hk.1] at h

theorem NotElse.of_starts {t : Token} {rest : List Token} (h : StartsStatement t) :
    NotElse (t :: rest) := by
  intro t1 rest1 e hk
  cases e
  exact h.not_keyword_else hk

theorem Derives.statements_not_else {ss rest : List Token}
    (h : Derives .statements ss) (hr : NotElse rest) : NotElse (ss ++ rest) := by
  cases h with
  | statements_nil => exact hr
  | statements_cons hs _ =>
    obtain ⟨t, s1, rfl, ht⟩ := hs.statement_head
    exact NotElse.of_starts ht

theorem complete_expression_statement {e t : Token}
    (he : IsExpression e) (ht : IsTerminator t) :
    Complete .statement [e, t] := by
  intro p rest hR _
  have R1 := hR.tail
  refine ⟨1, fun m hm => ?_⟩
  obtain ⟨m, rfl⟩ : ∃ k, m = k + 1 := ⟨m - 1, by omega⟩
  rw [parse_statement]
  simp only [hR.current, hR.read, Outcome.bind_ok]
  simp [he.not_keyword, hR.run_parse_expression he, R1.run_match_token ht, skip_skip]

theorem complete_function_declaration {f x l r : Token} {b : List Token}
    (hf : IsKeyword "function" f) (hx : IsIdentifier x) (hl : IsPunctuation "(" l)
    (hr : IsPunctuation ")" r) (ihb : Complete .block b) :
    Complete .statement (f :: x :: l :: r :: b) := by
  intro p rest hR _
  have R1 := hR.tail
  have R2 := R1.tail
  have R3 := R2.tail
  have R4 := R3.tail
  obtain ⟨nb, hb⟩ := ihb _ rest R4
  refine ⟨nb + 3, fun m hm => ?_⟩
  obtain ⟨m, rfl⟩ : ∃ k, m = k + 3 := ⟨m - 3, by omega⟩
  rw [parse_statement]
  simp only [hR.current, hR.read, Outcome.bind_ok]
  simp [hf.1, hf.2]
  rw [parse_function_declaration]
  simp only [hR.run_match_token hf.1, R1.run_match_token hx, R2.run_match_token hl.1,
    Outcome.bind_ok]
  rw [parse_parameters]
  simp [R3.current, R3.read, hr.1, hr.2, R3.run_match_token hr.1]
  rw [hb _ (by omega)]
  simp only [skip_skip]
  exact congrArg _ (skip_congr (by simp; omega) p)

theorem complete_function_declaration_parameters {f x l r : Token}
    {ps b : List Token}
    (hf : IsKeyword "function" f) (hx : IsIdentifier x) (hl : IsPunctuation "(" l)
    (ihp : Complete .parameters ps) (hr : IsPunctuation ")" r)
    (ihb : Complete .block b) :
    Complete .statement (f :: x :: l :: ps ++ r :: b) := by
  intro p rest hR0 _
  have hR : Remaining p (f :: x :: l :: (ps ++ r :: (b ++ rest))) := by
    simpa using hR0
  have R1 := hR.tail
  have R2 := R1.tail
  have R3 := R2.tail
  obtain ⟨np, hp⟩ := ihp _ r (b ++ rest) R3 hr
  have R4 := R3.skip_length ps
  have R5 := R4.tail
  obtain ⟨nb, hb⟩ := ihb _ rest R5
  refine ⟨np + nb + 2, fun m hm => ?_⟩
  obtain ⟨m, rfl⟩ : ∃ k, m = k + 2 := ⟨m - 2, by omega⟩
  rw [parse_statement]
  simp only [hR.current, hR.read, Outcome.bind_ok]
  simp [hf.1, hf.2]
  rw [parse_function_declaration]
  simp [hR.run_match_token hf.1, R1.run_match_token hx, R2.run_match_token hl.1,
    hp m (by omega), R4.run_match_token hr.1]
  rw [hb _ (by omega)]
  simp only [skip_skip]
  exact congrArg _ (skip_congr (by simp; omega) p)

theorem complete_parameters_one {x : Token} (hx : IsIdentifier x) :
    Complete .parameters [x] := by
  intro p r rest hR0 hr
  have hR : Remaining p (x :: r :: rest) := hR0
  have R1 := hR.tail
  have hx1 : x.type = TOKEN_IDENTIFIER := hx
  refine ⟨2, fun m hm => ?_⟩
  obtain ⟨m, rfl⟩ : ∃ k, m = k + 2 := ⟨m - 2, by omega⟩
  rw [parse_parameters]
  simp [hR.current, hR.read, hx1, hR.run_match_token hx, R1.read, hr.1, hr.2]
  rw [parse_parameters]
  simp [R1.current, R1.read, hr.1, hr.2]

theorem complete_parameters_more {x c : Token} {ps : List Token}
    (hx : IsIdentifier x) (hc : IsPunctuation "," c) (ihp : Complete .parameters ps) :
    Complete .parameters (x :: c :: ps) := by
  intro p r rest hR hr
  have R1 := hR.tail
  have R2 := R1.tail
  have hx1 : x.type = TOKEN_IDENTIFIER := hx
  obtain ⟨np, hp⟩ := ihp _ r rest R2 hr
  refine ⟨np + 1, fun m hm => ?_⟩
  obtain ⟨m, rfl⟩ : ∃ k, m = k + 1 := ⟨m - 1, by omega⟩
  rw [parse_parameters]
  simp [hR.current, hR.read, hx1, hR.run_match_token hx, R1.read, hc.1, hc.2,
    R1.advance]
  rw [hp _ (by omega)]
  simp only [skip_skip]
  exact congrArg _ (congrArg _ (skip_congr (by simp; omega) p))

theorem parse_statement_variable {p : Parser} {k : Token} {ts : List Token}
    (hR : Remaining p (k :: ts))
    (hk : IsKeyword "var" k ∨ IsKeyword "let" k ∨ IsKeyword "const" k) (m : Nat) :
    parse_statement (m + 1) p = parse_variable_declaration p := by
  rw [parse_statement]
  simp only [hR.current, hR.read, Outcome.bind_ok]
  rcases hk with hk | hk | hk <;> simp [hk.1, hk.2]

theorem keyword_of_variable {k : Token}
    (hk : IsKeyword "var" k ∨ IsKeyword "let" k ∨ IsKeyword "const" k) :
    k.type = TOKEN_KEYWORD := by
  rcases hk with hk | hk | hk <;> exact hk.1

theorem complete_variable_declaration {k x t : Token}
    (hk : IsKeyword "var" k ∨ IsKeyword "let" k ∨ IsKeyword "const" k)
    (hx : IsIdentifier x) (ht : IsTerminator t) :
    Complete .statement [k, x, t] := by
  intro p rest hR0 _
  have hR : Remaining p (k :: x :: t :: rest) := hR0
  have R1 := hR.tail
  have R2 := R1.tail
  have ht1 : t.type = TOKEN_PUNCTUATION := ht
  refine ⟨1, fun m hm => ?_⟩
  obtain ⟨m, rfl⟩ : ∃ k, m = k + 1 := ⟨m - 1, by omega⟩
  have tgt : skip [k, x, t].length p = skip 1 (skip 1 (skip 1 p)) := by
    simp [skip_skip]
  rw [parse_statement_variable hR hk, parse_variable_declaration, tgt]
  simp [hR.run_match_token (keyword_of_variable hk), R1.run_match_token hx,
    R2.current, R2.read, ht1, R2.run_match_token ht]

theorem complete_variable_declaration_initialised {k x o e t : Token}
    (hk : IsKeyword "var" k ∨ IsKeyword "let" k ∨ IsKeyword "const" k)
    (hx : IsIdentifier x) (ho : IsOperator "=" o) (he : IsExpression e)
    (ht : IsTerminator t) :
    Complete .statement [k, x, o, e, t] := by
  intro p rest hR0 _
  have hR : Remaining p (k :: x :: o :: e :: t :: rest) := hR0
  have R1 := hR.tail
  have R2 := R1.tail
  have R3 := R2.tail
  have R4 := R3.tail
  refine ⟨1, fun m hm => ?_⟩
  obtain ⟨m, rfl⟩ : ∃ k, m = k + 1 := ⟨m - 1, by omega⟩
  have tgt : skip [k, x, o, e, t].length p
      = skip 1 (skip 1 (skip 1 (skip 1 (skip 1 p)))) := by
    simp [skip_skip]
  rw [parse_statement_variable hR hk, parse_variable_declaration, tgt]
  simp [hR.run_match_token (keyword_of_variable hk), R1.run_match_token hx,
    R2.current, R2.read, ho.1, ho.2, R2.advance, R3.run_parse_expression he,
    R4.run_match_token ht]

theorem complete_if_statement_statement {s : List Token}
    (h : Derives .if_statement s) (ih : Complete .if_statement s) :
    Complete .statement s := by
  intro p rest hR hn
  obtain ⟨n, hs⟩ := ih p rest hR hn
  obtain ⟨i, s1, rfl, hi⟩ := h.if_head
  have hR1 : Remaining p (i :: (s1 ++ rest)) := hR
  refine ⟨n + 1, fun m hm => ?_⟩
  obtain ⟨m, rfl⟩ : ∃ k, m = k + 1 := ⟨m - 1, by omega⟩
  rw [parse_statement]
  simp only [hR1.current, hR1.read, Outcome.bind_ok]
  simp [hi.1, hi.2]
  exact hs m (by omega)

/-- After the body of an `if`, a state whose next token is not `else` is
returned as it is. -/
theorem no_else_branch {p : Parser} {rest : List Token} (hR : Remaining p rest)
    (hn : NotElse rest) (x : Outcome Parser) :
    (match p.current_token with
      | none => Outcome.ok p
      | some _ =>
        (read_current p).bind fun t =>
          if t.type = TOKEN_KEYWORD ∧ t.value = "else" then x else .ok p)
      = .ok p := by
  cases rest with
  | nil => rw [hR.exhausted]
  | cons t rest1 =>
    rw [hR.current]
    simp only [hR.read, Outcome.bind_ok]
    rw [if_neg (show ¬ (t.type = TOKEN_KEYWORD ∧ t.value = "else") from hn t rest1 rfl)]

theorem complete_if_then {i l e r : Token} {b : List Token}
    (hi : IsKeyword "if" i) (hl : IsPunctuation "(" l) (he : IsExpression e)
    (hr : IsPunctuation ")" r) (ihb : Complete .block b) :
    Complete .if_statement (i :: l :: e :: r :: b) := by
  intro p rest hR0 hn
  have hR : Remaining p (i :: l :: e :: r :: (b ++ rest)) := hR0
  have R1 := hR.tail
  have R2 := R1.tail
  have R3 := R2.tail
  have R4 := R3.tail
  obtain ⟨nb, hb⟩ := ihb _ rest R4
  have R5 := R4.skip_length b
  refine ⟨nb + 1, fun m hm => ?_⟩
  obtain ⟨m, rfl⟩ : ∃ k, m = k + 1 := ⟨m - 1, by omega⟩
  rw [parse_if_statement]
  simp only [hR.run_match_token hi.1, R1.run_match_token hl.1,
    R2.run_parse_expression he, R3.run_match_token hr.1, hb m (by omega),
    Outcome.bind_ok]
  simp only [Bool.true_eq_false, if_false]
  rw [no_else_branch R5 hn]
  simp only [skip_skip]
  exact congrArg _ (skip_congr (by simp; omega) p)

theorem complete_if_else {i l e r el : Token} {b b2 : List Token}
    (hi : IsKeyword "if" i) (hl : IsPunctuation "(" l) (he : IsExpression e)
    (hr : IsPunctuation ")" r) (ihb : Complete .block b) (hel : IsKeyword "else" el)
    (hb2 : Derives .block b2) (ihb2 : Complete .block b2) :
    Complete .if_statement (i :: l :: e :: r :: b ++ el :: b2) := by
  intro p rest hR0 hn
  have hR : Remaining p (i :: l :: e :: r :: (b ++ el :: (b2 ++ rest))) := by
    simpa using hR0
  have R1 := hR.tail
  have R2 := R1.tail
  have R3 := R2.tail
  have R4 := R3.tail
  obtain ⟨nb, hb⟩ := ihb _ _ R4
  have R5 := R4.skip_length b
  have R6 := R5.tail
  obtain ⟨nb2, hb2r⟩ := ihb2 _ rest R6
  obtain ⟨l2, b3, rfl, hl2⟩ := hb2.block_head
  have R6a : Remaining (skip 1 (skip b.length (skip 1 (skip 1 (skip 1 (skip 1 p))))))
      (l2 :: (b3 ++ rest)) := R6
  refine ⟨nb + nb2 + 1, fun m hm => ?_⟩
  obtain ⟨m, rfl⟩ : ∃ k, m = k + 1 := ⟨m - 1, by omega⟩
  rw [parse_if_statement]
  simp only [hR.run_match_token hi.1, R1.run_match_token hl.1,
    R2.run_parse_expression he, R3.run_match_token hr.1, hb m (by omega),
    Outcome.bind_ok]
  simp [R5.current, R5.read, hel.1, hel.2, R5.advance, R6a.current, R6a.read, hl2.1]
  rw [hb2r m (by omega)]
  simp only [skip_skip]
  exact congrArg _ (skip_congr (by simp; omega) p)

theorem complete_if_else_if {i l e r el : Token} {b s2 : List Token}
    (hi : IsKeyword "if" i) (hl : IsPunctuation "(" l) (he : IsExpression e)
    (hr : IsPunctuation ")" r) (ihb : Complete .block b) (hel : IsKeyword "else" el)
    (hs2 : Derives .if_statement s2) (ihs2 : Complete .if_statement s2) :
    Complete .if_statement (i :: l :: e :: r :: b ++ el :: s2) := by
  intro p rest hR0 hn
  have hR : Remaining p (i :: l :: e :: r :: (b ++ el :: (s2 ++ rest))) := by
    simpa using hR0
  have R1 := hR.tail
  have R2 := R1.tail
  have R3 := R2.tail
  have R4 := R3.tail
  obtain ⟨nb, hb⟩ := ihb _ _ R4
  have R5 := R4.skip_length b
  have R6 := R5.tail
  obtain ⟨ns2, hs2r⟩ := ihs2 _ rest R6 hn
  obtain ⟨i2, s3, rfl, hi2⟩ := hs2.if_head
  have R6a : Remaining (skip 1 (skip b.length (skip 1 (skip 1 (skip 1 (skip 1 p))))))
      (i2 :: (s3 ++ rest)) := R6
  refine ⟨nb + ns2 + 1, fun m hm => ?_⟩
  obtain ⟨m, rfl⟩ : ∃ k, m = k + 1 := ⟨m - 1, by omega⟩
  rw [parse_if_statement]
  simp only [hR.run_match_token hi.1, R1.run_match_token hl.1,
    R2.run_parse_expression he, R3.run_match_token hr.1, hb m (by omega),
    Outcome.bind_ok]
  simp [R5.current, R5.read, hel.1, hel.2, R5.advance, R6a.current, R6a.read,
    hi2.1, hi2.2]
  rw [hs2r m (by omega)]
  simp only [skip_skip]
  exact congrArg _ (skip_congr (by simp; omega) p)

theorem complete_block {l r : Token} {ss : List Token}
    (hl : IsPunctuation "\x7b" l) (ihs : Complete .statements ss)
    (hr : IsPunctuation "\x7d" r) :
    Complete .block (l :: ss ++ [r]) := by
  intro p rest hR0
  have hR : Remaining p (l :: (ss ++ r :: rest)) := by simpa using hR0
  have R1 := hR.tail
  obtain ⟨ns, hs⟩ := ihs.1 _ r rest R1 hr
  have R2 := R1.skip_length ss
  refine ⟨ns + 1, fun m hm => ?_⟩
  obtain ⟨m, rfl⟩ : ∃ k, m = k + 1 := ⟨m - 1, by omega⟩
  rw [parse_block]
  simp [hR.run_match_token hl.1, hs m (by omega), R2.run_match_token hr.1]
  simp only [skip_skip]
  exact skip_congr (by simp; omega) p

theorem complete_statements_nil : Complete .statements [] := by
  constructor
  · intro p r rest hR0 hr
    have hR : Remaining p (r :: rest) := hR0
    refine ⟨1, fun m hm => ?_⟩
    obtain ⟨m, rfl⟩ : ∃ k, m = k + 1 := ⟨m - 1, by omega⟩
    rw [parse_block_statements]
    simp [hR.current, hR.read, hr.1, hr.2, hR.skip_zero]
  · intro p hR
    refine ⟨1, fun m hm => ?_⟩
    obtain ⟨m, rfl⟩ : ∃ k, m = k + 1 := ⟨m - 1, by omega⟩
    rw [parse_program]
    simp [hR.exhausted, hR.skip_zero]

theorem complete_statements_cons {s ss : List Token}
    (hs : Derives .statement s) (hss : Derives .statements ss)
    (ihs : Complete .statement s) (ihss : Complete .statements ss) :
    Complete .statements (s ++ ss) := by
  obtain ⟨t, s1, hst, ht⟩ := hs.statement_head
  constructor
  · intro p r rest hR0 hr
    have hR : Remaining p (s ++ (ss ++ r :: rest)) := by simpa using hR0
    obtain ⟨n1, h1⟩ := ihs p _ hR
      (hss.statements_not_else (NotElse.of_punctuation hr.1))
    have R1 := hR.skip_length s
    obtain ⟨n2, h2⟩ := ihss.1 _ r rest R1 hr
    have hRt : Remaining p (t :: (s1 ++ (ss ++ r :: rest))) := by
      rw [hst] at hR; exact hR
    refine ⟨n1 + n2 + 1, fun m hm => ?_⟩
    obtain ⟨m, rfl⟩ : ∃ k, m = k + 1 := ⟨m - 1, by omega⟩
    rw [parse_block_statements]
    simp [hRt.current, hRt.read, ht.not_punctuation, h1 m (by omega),
      h2 m (by omega), skip_skip]
  · intro p hR
    have hR1 : Remaining p (s ++ (ss ++ [])) := by simpa using hR
    obtain ⟨n1, h1⟩ := ihs p _ hR1 (hss.statements_not_else NotElse.empty)
    have R1 : Remaining (skip s.length p) ss := by
      simpa using hR1.skip_length s
    obtain ⟨n2, h2⟩ := ihss.2 _ R1
    have hRt : Remaining p (t :: (s1 ++ ss)) := by
      rw [hst] at hR; exact hR
    refine ⟨n1 + n2 + 1, fun m hm => ?_⟩
    obtain ⟨m, rfl⟩ : ∃ k, m = k + 1 := ⟨m - 1, by omega⟩
    rw [parse_program]
    simp [hRt.current, hRt.read, ht.not_eof, h1 m (by omega), h2 m (by omega),
      skip_skip]

/-- Each routine accepts what its nonterminal derives. -/
theorem derives_complete {x : Symbol} {ts : List Token} (h : Derives x ts) :
    Complete x ts := by
  induction h with
  | statements_nil => exact complete_statements_nil
  | statements_cons hs hss ihs ihss => exact complete_statements_cons hs hss ihs ihss
  | expression_statement he ht => exact complete_expression_statement he ht
  | function_declaration hf hx hl hr _ ihb =>
    exact complete_function_declaration hf hx hl hr ihb
  | function_declaration_parameters hf hx hl _ hr _ ihp ihb =>
    exact complete_function_declaration_parameters hf hx hl ihp hr ihb
  | parameters_one hx => exact complete_parameters_one hx
  | parameters_more hx hc _ ihp => exact complete_parameters_more hx hc ihp
  | variable_declaration hk hx ht => exact complete_variable_declaration hk hx ht
  | variable_declaration_initialised hk hx ho he ht =>
    exact complete_variable_declaration_initialised hk hx ho he ht
  | if_statement_statement hs ih => exact complete_if_statement_statement hs ih
  | while_statement hw hl he hr _ ihb => exact complete_while hw hl he hr ihb
  | if_then hi hl he hr _ ihb => exact complete_if_then hi hl he hr ihb
  | if_else hi hl he hr _ hel hb2 ihb ihb2 =>
    exact complete_if_else hi hl he hr ihb hel hb2 ihb2
  | if_else_if hi hl he hr _ hel hs2 ihb ihs2 =>
    exact complete_if_else_if hi hl he hr ihb hel hs2 ihs2
  | block hl _ hr ihs => exact complete_block hl ihs hr

theorem start_remaining (ts : List Token) : Remaining (start ts) ts :=
  ⟨start_consistent ts, rfl, rfl⟩

theorem statement_x_derives : Derives .statement statement_x :=
  Derives.expression_statement (Or.inl rfl) rfl

theorem block_x_derives : Derives .block block_x :=
  @Derives.block (punctuation "\x7b") (punctuation "\x7d") (statement_x ++ [])
    ⟨rfl, rfl⟩
    (Derives.statements_cons statement_x_derives Derives.statements_nil) ⟨rfl, rfl⟩

theorem if_x_derives :
    Derives .if_statement (keyword "if" :: punctuation "(" :: identifier "x"
      :: punctuation ")" :: block_x) :=
  Derives.if_then ⟨rfl, rfl⟩ ⟨rfl, rfl⟩ (Or.inl rfl) ⟨rfl, rfl⟩ block_x_derives

theorem while_x_derives :
    Derives .statement (keyword "while" :: punctuation "(" :: identifier "x"
      :: punctuation ")" :: block_x) :=
  Derives.while_statement ⟨rfl, rfl⟩ ⟨rfl, rfl⟩ (Or.inl rfl) ⟨rfl, rfl⟩ block_x_derives

theorem let_x_derives :
    Derives .statement [keyword "let", identifier "x", operator "=", number "1",
      punctuation ";"] :=
  Derives.variable_declaration_initialised (Or.inr (Or.inl ⟨rfl, rfl⟩)) rfl
    ⟨rfl, rfl⟩ (Or.inr (Or.inl rfl)) rfl

theorem program_round_trip_derives : Derives .statements program_round_trip :=
  Derives.statements_cons let_x_derives
    (Derives.statements_cons
      (Derives.if_statement_statement
        (@Derives.if_else (keyword "if") (punctuation "(") (identifier "x")
          (punctuation ")") (keyword "else") _ block_x
          ⟨rfl, rfl⟩ ⟨rfl, rfl⟩ (Or.inl rfl) ⟨rfl, rfl⟩
          (@Derives.block (punctuation "\x7b") (punctuation "\x7d") _ ⟨rfl, rfl⟩
            (Derives.statements_cons while_x_derives Derives.statements_nil)
            ⟨rfl, rfl⟩)
          ⟨rfl, rfl⟩ block_x_derives))
      Derives.statements_nil)

theorem program_else_if_derives : Derives .statements program_else_if :=
  Derives.statements_cons
    (Derives.if_statement_statement
      (@Derives.if_else_if (keyword "if") (punctuation "(") (identifier "x")
        (punctuation ")") (keyword "else") block_x _
        ⟨rfl, rfl⟩ ⟨rfl, rfl⟩ (Or.inl rfl) ⟨rfl, rfl⟩
        block_x_derives ⟨rfl, rfl⟩ if_x_derives))
    Derives.statements_nil

/-- C2. Every token sequence `ts` derivable from `program = statement*` is
accepted: `parse_program` started on `ts` returns, for every fuel from
`4 * length + 4` on, one state, with no error counted, nothing written and
every token consumed. -/
theorem C2_recogniser_complete (ts : List Token) (h : Derives .statements ts) :
    ∃ q, (∀ n, 4 * ts.length + 4 ≤ n → parse_program n (start ts) = .ok q) ∧
      q.error_count = 0 ∧ q.token_index = ts.length ∧ q.stderr = [] := by
  obtain ⟨n0, h0⟩ := (derives_complete h).2 (start ts) (start_remaining ts)
  refine ⟨skip ts.length (start ts), fun n hn => ?_, rfl, ?_, rfl⟩
  · have hh : parse_program (4 * ts.length + 4) (start ts) ≠ .out_of_fuel :=
      parse_program_halts _ _ (start_consistent ts) (by rw [start_unconsumed])
    have hbig := h0 (max n0 (4 * ts.length + 4)) (le_max_left _ _)
    have hsmall : parse_program (4 * ts.length + 4) (start ts)
        = .ok (skip ts.length (start ts)) := by
      rw [← hbig]
      exact (fuel_mono parse_program_mono (le_max_right _ _) hh rfl).symm
    exact fuel_mono parse_program_mono hn (by simp) hsmall
  · simp [skip, start]

/-- C2, on the two programs named by the claim. -/
theorem C2_recogniser_complete_witness :
    (∃ q, (∀ n, 100 ≤ n → parse_program n (start program_round_trip) = .ok q) ∧
      q.error_count = 0 ∧ q.token_index = 24 ∧ q.stderr = []) ∧
    (∃ q, (∀ n, 72 ≤ n → parse_program n (start program_else_if) = .ok q) ∧
      q.error_count = 0 ∧ q.token_index = 17 ∧ q.stderr = []) :=
  ⟨C2_recogniser_complete program_round_trip program_round_trip_derives,
    C2_recogniser_complete program_else_if program_else_if_derives⟩

/-! ## Inputs on which the engine departs from the grammar or stops short -/

theorem Derives.if_closing {s : List Token} (h : Derives .if_statement s) :
    ∃ i l e r tl, s = i :: l :: e :: r :: tl ∧ IsPunctuation ")" r := by
  cases h with
  | if_then _ _ _ hr => exact ⟨_, _, _, _, _, rfl, hr⟩
  | if_else _ _ _ hr => exact ⟨_, _, _, _, _, rfl, hr⟩
  | if_else_if _ _ _ hr => exact ⟨_, _, _, _, _, rfl, hr⟩

theorem Derives.statement_if_closing {s : List Token} (h : Derives .statement s)
    {t : Token} {s1 : List Token} (hs : s = t :: s1) (ht : IsKeyword "if" t) :
    ∃ i l e r tl, s = i :: l :: e :: r :: tl ∧ IsPunctuation ")" r := by
  cases h with
  | expression_statement he _ =>
    cases hs
    exact absurd ht.1 he.not_keyword
  | function_declaration hf =>
    cases hs
    have := hf.2.symm.trans ht.2
    simp at this
  | function_declaration_parameters hf =>
    cases hs
    have := hf.2.symm.trans ht.2
    simp at this
  | variable_declaration hk =>
    cases hs
    rcases hk with hk | hk | hk <;>
      · have := hk.2.symm.trans ht.2
        simp at this
  | variable_declaration_initialised hk =>
    cases hs
    rcases hk with hk | hk | hk <;>
      · have := hk.2.symm.trans ht.2
        simp at this
  | if_statement_statement hi => exact hi.if_closing
  | while_statement hw =>
    cases hs
    have := hw.2.symm.trans ht.2
    simp at this

theorem Derives.statements_if_closing {ts : List Token} (h : Derives .statements ts)
    {t : Token} {ts1 : List Token} (hs : ts = t :: ts1) (ht : IsKeyword "if" t) :
    ∃ i l e r tl, ts = i :: l :: e :: r :: tl ∧ IsPunctuation ")" r := by
  cases h with
  | statements_nil => cases hs
  | statements_cons h1 _ =>
    obtain ⟨u, s1, rfl, -⟩ := h1.statement_head
    cases hs
    obtain ⟨i, l, e, r, tl, hs1, hr⟩ := h1.statement_if_closing rfl ht
    rw [hs1]
    exact ⟨i, l, e, r, _, rfl, hr⟩

/-- C3. The buffer `if ( x ; { x ; }` holds no end-of-input token and is not
derivable from the grammar, a `;` standing where `)` must; yet `parse_program`
consumes all of it and counts no error. -/
theorem C3_unclosed_condition_accepted :
    (∀ t ∈ program_unclosed_condition, t.type ≠ TOKEN_EOF) ∧
    ¬ Derives .statements program_unclosed_condition ∧
    (∀ n, 6 ≤ n → ∃ q, parse_program n (start program_unclosed_condition) = .ok q ∧
      q.error_count = 0 ∧ q.token_index = 8 ∧ q.stderr = []) := by
  refine ⟨by decide, fun h => ?_, fun n hn => ?_⟩
  · obtain ⟨i, l, e, r, tl, hs, hr⟩ := h.statements_if_closing rfl ⟨rfl, rfl⟩
    cases hs
    have := hr.2
    simp [punctuation] at this
  · exact ⟨_, fuel_mono parse_program_mono hn (by simp) rfl, rfl, rfl, rfl⟩

/-- C4. On the buffer `let x = 1`, which ends where the terminator should be,
`parse_variable_declaration` and `parse_program` report "Expected semicolon"
through `parser_error` with no current token: the run stops at that read and
no error is counted.  With the capacity of 1000 slots that `main` allocates
the run stops earlier, at the read of the slot after the last token.  When a
token that is no punctuation follows the declaration, exactly one error "Expected semicolon" is counted and exactly the
tokens of the declaration are consumed. -/
theorem C4_missing_semicolon :
    parse_variable_declaration (start program_missing_semicolon)
      = .fault .null_dereference ∧
    (∀ n, 2 ≤ n →
      parse_program n (start program_missing_semicolon) = .fault .null_dereference) ∧
    (∀ n, 2 ≤ n →
      parse_program n { start program_missing_semicolon with token_capacity := 1000 }
        = .fault .invalid_read) ∧
    (∀ (p : Parser) (k x t : Token) (rest : List Token),
      Remaining p (k :: x :: t :: rest) → k.type = TOKEN_KEYWORD →
      x.type = TOKEN_IDENTIFIER → t.type ≠ TOKEN_PUNCTUATION →
      ¬ (t.type = TOKEN_OPERATOR ∧ t.value = "=") →
      parse_variable_declaration p = .ok { skip 2 p with
        stderr := p.stderr ++ [⟨t.line, t.column, "Expected semicolon"⟩]
        error_count := p.error_count + 1 }) ∧
    (∀ (p : Parser) (k x o e t : Token) (rest : List Token),
      Remaining p (k :: x :: o :: e :: t :: rest) → k.type = TOKEN_KEYWORD →
      x.type = TOKEN_IDENTIFIER → IsOperator "=" o → IsExpression e →
      t.type ≠ TOKEN_PUNCTUATION →
      parse_variable_declaration p = .ok { skip 4 p with
        stderr := p.stderr ++ [⟨t.line, t.column, "Expected semicolon"⟩]
        error_count := p.error_count + 1 }) := by
  refine ⟨rfl, fun n hn => fuel_mono parse_program_mono hn (by simp) rfl,
    fun n hn => fuel_mono parse_program_mono hn (by simp) rfl, ?_, ?_⟩
  · intro p k x t rest hR hk hx ht hne
    have R1 := hR.tail
    have R2 := R1.tail
    have tgt : skip 2 p = skip 1 (skip 1 p) := by simp [skip_skip]
    rw [parse_variable_declaration, tgt]
    simp [hR.run_match_token hk, R1.run_match_token hx, R2.current, R2.read, hne,
      match_token_of_read_ne R2.read ht, parser_error_of_read R2.read]
    exact ⟨rfl, rfl⟩
  · intro p k x o e t rest hR hk hx ho he ht
    have R1 := hR.tail
    have R2 := R1.tail
    have R3 := R2.tail
    have R4 := R3.tail
    have tgt : skip 4 p = skip 1 (skip 1 (skip 1 (skip 1 p))) := by simp [skip_skip]
    rw [parse_variable_declaration, tgt]
    simp [hR.run_match_token hk, R1.run_match_token hx, R2.current, R2.read, ho.1,
      ho.2, R2.advance, R3.run_parse_expression he,
      match_token_of_read_ne R4.read ht, parser_error_of_read R4.read]
    exact ⟨rfl, rfl⟩

/-- C5. On the buffer `if ( x ) { x ;`, which ends before the closing brace,
`parse_program` reports "Expected \x7d" through `parser_error` with no current
token: the run stops at that read and no error is counted.  With the capacity
of 1000 slots that `main` allocates the run stops at the read of the slot
after the last token.  Every `parse_block` whose statement loop ends on an
exhausted buffer stops in `parser_error` likewise. -/
theorem C5_unterminated_block :
    (∀ n, 6 ≤ n →
      parse_program n (start program_unterminated_block) = .fault .null_dereference) ∧
    (∀ n, 6 ≤ n →
      parse_program n { start program_unterminated_block with token_capacity := 1000 }
        = .fault .invalid_read) ∧
    (∀ (n : Nat) (p p1 p2 : Parser),
      match_token p TOKEN_PUNCTUATION = .ok (true, p1) →
      parse_block_statements n p1 = .ok p2 → p2.current_token = none →
      parse_block (n + 1) p = .fault .null_dereference) := by
  refine ⟨fun n hn => fuel_mono parse_program_mono hn (by simp) rfl,
    fun n hn => fuel_mono parse_program_mono hn (by simp) rfl, ?_⟩
  intro n p p1 p2 h1 h2 h3
  have hm : match_token p2 TOKEN_PUNCTUATION = .ok (false, p2) := by
    simp [match_token, h3]
  have he : parser_error p2 "Expected \x7d" = .fault .null_dereference := by
    simp [parser_error, read_current, h3]
  rw [parse_block]
  simp [h1, h2, hm, he]

/-! ## Contracts of the primitives -/

/-- C11. `advance_token` with the cursor inside the buffer moves it by one and
sets the current token to the one under the new cursor, `NULL` when the new
cursor is the length; with the cursor at or past the length it returns the
state as it was.  It never counts or writes an error, and being a total
function it raises none. -/
theorem C11_advance_token_contract (p : Parser) :
    (p.token_index < p.token_capacity →
      (advance_token p).token_index = p.token_index + 1 ∧
      (advance_token p).current_token = peek_token (advance_token p) ∧
      (p.token_index + 1 = p.token_capacity → (advance_token p).current_token = none) ∧
      (p.token_index + 1 < p.token_capacity →
        (advance_token p).current_token = some (p.token_index + 1))) ∧
    (p.token_capacity ≤ p.token_index → advance_token p = p) ∧
    (advance_token p).error_count = p.error_count ∧
    (advance_token p).stderr = p.stderr ∧
    (advance_token p).tokens = p.tokens ∧
    (advance_token p).token_capacity = p.token_capacity := by
  by_cases h : p.token_index < p.token_capacity
  · have e : advance_token p = { p with
        token_index := p.token_index + 1
        current_token := peek_token { p with token_index := p.token_index + 1 } } := by
      simp [advance_token, h]
    rw [e]
    refine ⟨fun _ => ⟨rfl, rfl, fun h1 => ?_, fun h1 => ?_⟩, fun h1 => ?_, rfl, rfl, rfl, rfl⟩
    · simp [peek_token, h1]
    · simp only [peek_token]
      rw [if_neg (by simp only [ge_iff_le, not_le]; exact h1)]
    · omega
  · have e : advance_token p = p := by simp [advance_token, h]
    rw [e]
    exact ⟨fun h1 => absurd h1 h, fun _ => rfl, rfl, rfl, rfl, rfl⟩

/-- C11, at the start and at the end of the buffer `x +`. -/
theorem C11_advance_token_contract_witness :
    (advance_token (start [identifier "x", operator "+"])).token_index = 0 + 1 ∧
    (advance_token (start [identifier "x", operator "+"])).current_token = some (0 + 1) ∧
    advance_token (skip 2 (start [identifier "x", operator "+"]))
      = skip 2 (start [identifier "x", operator "+"]) :=
  ⟨((C11_advance_token_contract (start [identifier "x", operator "+"])).1
      (by decide)).1,
    ((C11_advance_token_contract (start [identifier "x", operator "+"])).1
      (by decide)).2.2.2 (by decide),
    (C11_advance_token_contract (skip 2 (start [identifier "x", operator "+"]))).2.1
      (by decide)⟩

/-- C12. On a parser state whose current token `t` is present,
`parse_expression` returns with the cursor one further; it counts one error,
"Expected expression" at `t`, exactly when `t` is no identifier, number,
string or boolean.  On an absent token it returns the state as it was. -/
theorem C12_expression_progress (p : Parser) (hc : Consistent p) :
    (∀ t, read_current p = .ok t →
      ∃ q, parse_expression p = .ok q ∧ q.token_index = p.token_index + 1 ∧
        (IsExpression t → q.error_count = p.error_count ∧ q.stderr = p.stderr) ∧
        (¬ IsExpression t → q.error_count = p.error_count + 1 ∧
          q.stderr = p.stderr ++ [⟨t.line, t.column, "Expected expression"⟩])) ∧
    (p.current_token = none → parse_expression p = .ok p) := by
  constructor
  · intro t ht
    have hn := read_current_some ht
    have hlt := consistent_lt hc hn
    obtain ⟨i, hi⟩ := Option.ne_none_iff_exists'.mp hn
    by_cases he : IsExpression t
    · refine ⟨advance_token p, ?_, advance_token_index_of_lt hlt, fun _ => ?_,
        fun h => absurd he h⟩
      · unfold parse_expression
        rw [hi]
        simp only [ht, Outcome.bind_ok]
        rcases he with he | he | he | he <;> rw [he]
      · simp [advance_token, hlt]
    · refine ⟨advance_token { p with
          stderr := p.stderr ++ [⟨t.line, t.column, "Expected expression"⟩]
          error_count := p.error_count + 1 }, ?_, ?_, fun h => absurd h he, fun _ => ?_⟩
      · unfold parse_expression
        rw [hi]
        simp only [ht, Outcome.bind_ok, parser_error_of_read ht]
        simp only [IsExpression, not_or] at he
        obtain ⟨h1, h2, h3, h4⟩ := he
        split <;> simp_all
      · simp [advance_token, hlt]
      · simp [advance_token, hlt]
  · intro h
    simp [parse_expression, h]

/-- C12, on an operator and on an identifier. -/
theorem C12_expression_progress_witness :
    (∃ q, parse_expression (start [operator "+"]) = .ok q ∧ q.token_index = 0 + 1 ∧
      (IsExpression (operator "+") → q.error_count = 0 ∧ q.stderr = []) ∧
      (¬ IsExpression (operator "+") → q.error_count = 0 + 1 ∧
        q.stderr = [] ++ [⟨1, 1, "Expected expression"⟩])) ∧
    (∃ q, parse_expression (start [identifier "x"]) = .ok q ∧ q.token_index = 0 + 1 ∧
      (IsExpression (identifier "x") → q.error_count = 0 ∧ q.stderr = []) ∧
      (¬ IsExpression (identifier "x") → q.error_count = 0 + 1 ∧
        q.stderr = [] ++ [⟨1, 1, "Expected expression"⟩])) :=
  ⟨(C12_expression_progress (start [operator "+"]) (by decide)).1 (operator "+") rfl,
    (C12_expression_progress (start [identifier "x"]) (by decide)).1
      (identifier "x") rfl⟩

/-- C19. Every operation that returns leaves the token array and its capacity
as they were; `peek_token`, a function of the state into a pointer, returns no
state at all.  What an operation may change is the cursor, the current token,
the error count and the diagnostic stream. -/
theorem C19_token_buffer_read_only (p : Parser) : AfterEvery BufferKept p :=
  AfterEvery.imp (fun _ e => ⟨e.tokens_eq, e.capacity_eq⟩) (after_every_extends p)

/-- C20. On a parser state whose current token is present, whatever its kind,
`parse_statement` returns only with the cursor strictly further, and with
fuel `4 * unconsumed + 3` it does not run out of fuel; on an absent token it
returns the state as it was. -/
theorem C20_statement_progress (p : Parser) (hc : Consistent p) :
    (p.current_token ≠ none →
      (∀ n q, parse_statement n p = .ok q → p.token_index < q.token_index) ∧
      (∀ n, 4 * unconsumed p + 3 ≤ n → parse_statement n p ≠ .out_of_fuel)) ∧
    (p.current_token = none → ∀ n, parse_statement (n + 1) p = .ok p) := by
  refine ⟨fun hn => ⟨fun n q h => ((routines_step n).1 _ _ h).2 hc hn,
    fun n h => (routines_halt n).1 p hc h⟩, fun hn n => ?_⟩
  rw [parse_statement]
  simp [hn]

/-- C20, on an end-of-input token followed by `;` and on the empty buffer. -/
theorem C20_statement_progress_witness :
    (∀ q, parse_statement 1 (start [end_of_input, punctuation ";"]) = .ok q →
      0 < q.token_index) ∧
    parse_statement 1 (start [end_of_input, punctuation ";"])
      = .ok { skip 2 (start [end_of_input, punctuation ";"]) with
          error_count := 1
          stderr := [⟨1, 1, "Expected expression"⟩] } ∧
    parse_statement 1 (start []) = .ok (start []) :=
  ⟨((C20_statement_progress (start [end_of_input, punctuation ";"]) (by decide)).1
      (by decide)).1 1,
    rfl,
    (C20_statement_progress (start []) (by decide)).2 rfl 0⟩

/-! ## The end of the buffer -/

/-- C13. The buffer `let x = 1` holds no end-of-input token.  On it
`parse_program` stops in the read `parser_error` makes through the absent
current token; with one end-of-input token appended it returns with
`error_count = 1`. -/
theorem C13_end_of_buffer_differs :
    (∀ t ∈ program_missing_semicolon, t.type ≠ TOKEN_EOF) ∧
    (∀ n, 2 ≤ n →
      parse_program n (start program_missing_semicolon) = .fault .null_dereference) ∧
    (∀ n, 2 ≤ n →
      ∃ q, parse_program n (start (program_missing_semicolon ++ [end_of_input]))
          = .ok q ∧
        q.error_count = 1 ∧ q.stderr = [⟨1, 1, "Expected semicolon"⟩]) :=
  ⟨by decide, fun n hn => fuel_mono parse_program_mono hn (by simp) rfl,
    fun n hn => ⟨_, fuel_mono parse_program_mono hn (by simp) rfl, rfl, rfl⟩⟩

theorem read_current_null (p : Parser) :
    read_current p = .fault .null_dereference ↔ p.current_token = none := by
  unfold read_current
  cases p.current_token with
  | none => simp
  | some i =>
    simp only [reduceCtorEq, iff_false]
    split <;> simp

/-- C14. A read of the current token ends in `null_dereference` exactly when
the current token is absent.  `parse_program` makes such a read on the buffer
`x`, in `parser_error` after the terminator was not found, and on the buffer
`function f ( a`, in the trailing-comma check of the parameter loop, entered
after the parameter `a` was matched and the buffer thereby exhausted. -/
theorem C14_reads_absent_token :
    (∀ p, read_current p = .fault .null_dereference ↔ p.current_token = none) ∧
    (parse_expression (start [identifier "x"]) = .ok (skip 1 (start [identifier "x"])) ∧
      (skip 1 (start [identifier "x"])).current_token = none ∧
      match_token (skip 1 (start [identifier "x"])) TOKEN_PUNCTUATION
        = .ok (false, skip 1 (start [identifier "x"])) ∧
      parser_error (skip 1 (start [identifier "x"])) "Expected semicolon"
        = .fault .null_dereference ∧
      ∀ n, 2 ≤ n →
        parse_program n (start [identifier "x"]) = .fault .null_dereference) ∧
    (match_token (skip 3 (start program_open_parameters)) TOKEN_IDENTIFIER
        = .ok (true, skip 4 (start program_open_parameters)) ∧
      (skip 4 (start program_open_parameters)).current_token = none ∧
      (∀ n, parse_parameters (n + 1) (skip 3 (start program_open_parameters))
        = .fault .null_dereference) ∧
      ∀ n, 4 ≤ n →
        parse_program n (start program_open_parameters) = .fault .null_dereference) :=
  ⟨read_current_null,
    ⟨rfl, rfl, rfl, rfl, fun n hn => fuel_mono parse_program_mono hn (by simp) rfl⟩,
    ⟨rfl, rfl, fun n => fuel_mono parse_parameters_mono (Nat.le_add_left 1 n) (by simp) rfl,
      fun n hn => fuel_mono parse_program_mono hn (by simp) rfl⟩⟩

/-- C15 as stated fails on the empty buffer: `parse_expression` on the absent
token returns without having counted an error. -/
theorem C15_absent_token_counterexample :
    ¬ ∃ q, parse_expression (start []) = .ok q ∧
      q.error_count = (start []).error_count + 1 ∧
      q.token_index = (start []).token_index := by
  rintro ⟨q, h, he, -⟩
  have : q = start [] := by
    have h1 : parse_expression (start []) = .ok (start []) := rfl
    rw [h1] at h
    cases h
    rfl
  rw [this] at he
  simp at he

/-- C15, amended. On an absent current token `parse_expression` does nothing:
it returns the state as it was, so neither the error count, nor the diagnostic
stream, nor the cursor changes. -/
theorem C15_absent_token_unchanged (p : Parser) (h : p.current_token = none) :
    parse_expression p = .ok p := by
  simp [parse_expression, h]

/-- C15 amended, on the empty buffer. -/
theorem C15_absent_token_unchanged_witness :
    (start []).current_token = none ∧ parse_expression (start []) = .ok (start []) :=
  ⟨rfl, C15_absent_token_unchanged (start []) rfl⟩

/-- C16. `parse_block` entered on the buffer `( x ; \x7d` takes the `(` for
the opening brace, parses the body and returns past the closing brace with no
error.  Entered on an absent token it stops in the read `parser_error` makes
through it.  Entered on a present token that is no punctuation it counts one
error, "Expected \x7b" at that token, and returns with the cursor where it
was. -/
theorem C16_missing_opening_brace :
    (∀ n, 3 ≤ n →
      parse_block n (start program_paren_block) = .ok (skip 4 (start program_paren_block))) ∧
    (∀ n, parse_block (n + 1) (start []) = .fault .null_dereference) ∧
    (∀ n p t, read_current p = .ok t → t.type ≠ TOKEN_PUNCTUATION →
      parse_block (n + 1) p = .ok (record p t "Expected \x7b")) := by
  refine ⟨fun n hn => fuel_mono (routines_mono · |>.2.2.1) hn (by simp) rfl,
    fun n => fuel_mono (routines_mono · |>.2.2.1) (Nat.le_add_left 1 n) (by simp) rfl,
    fun n p t ht hk => ?_⟩
  rw [parse_block]
  simp [match_token_of_read_ne ht hk, parser_error_of_read ht, record]

/-! ## The headers of the if- and while-statements -/

theorem skip_record (k : Nat) (p : Parser) (t : Token) (m : String) :
    skip k (record p t m) = record (skip k p) t m := rfl

theorem Remaining.recorded {p : Parser} {ts : List Token} (h : Remaining p ts)
    (t : Token) (m : String) : Remaining (record p t m) ts :=
  ⟨h.1, h.2.1, h.2.2⟩

theorem Remaining.run_parse_expression_error {p : Parser} {t : Token}
    {ts : List Token} (h : Remaining p (t :: ts)) (he : ¬ IsExpression t) :
    parse_expression p = .ok (skip 1 (record p t "Expected expression")) := by
  unfold parse_expression
  rw [h.current]
  simp only [h.read, Outcome.bind_ok, parser_error_of_read h.read]
  have e : advance_token (record p t "Expected expression")
      = skip 1 (record p t "Expected expression") := (h.recorded t _).advance
  simp only [IsExpression, not_or] at he
  obtain ⟨h1, h2, h3, h4⟩ := he
  split
  · exact absurd ‹_› h1
  · exact absurd ‹_› h2
  · exact absurd ‹_› h3
  · exact absurd ‹_› h4
  · exact congrArg _ e

theorem parse_if_statement_header : HeaderAborts parse_if_statement "Expected 'if' keyword" := by
  refine ⟨fun n p t ht hk => ?_, fun n p k t rest hR hk ht => ?_,
    fun n p k l c t rest hR hk hl hc ht => ?_⟩
  · rw [parse_if_statement]
    simp [match_token_of_read_ne ht hk, parser_error_of_read ht, record]
  · have R1 := hR.tail
    rw [parse_if_statement]
    simp [hR.run_match_token hk, match_token_of_read_ne R1.read ht,
      parser_error_of_read R1.read, record]
  · have R1 := hR.tail
    have R2 := R1.tail
    have R3 := R2.tail
    have tgt : skip 3 p = skip 1 (skip 1 (skip 1 p)) := by simp [skip_skip]
    rw [parse_if_statement, tgt]
    simp [hR.run_match_token hk, R1.run_match_token hl, R2.run_parse_expression hc,
      match_token_of_read_ne R3.read ht, parser_error_of_read R3.read, record]

theorem parse_while_statement_header :
    HeaderAborts parse_while_statement "Expected 'while' keyword" := by
  refine ⟨fun n p t ht hk => ?_, fun n p k t rest hR hk ht => ?_,
    fun n p k l c t rest hR hk hl hc ht => ?_⟩
  · rw [parse_while_statement]
    simp [match_token_of_read_ne ht hk, parser_error_of_read ht, record]
  · have R1 := hR.tail
    rw [parse_while_statement]
    simp [hR.run_match_token hk, match_token_of_read_ne R1.read ht,
      parser_error_of_read R1.read, record]
  · have R1 := hR.tail
    have R2 := R1.tail
    have R3 := R2.tail
    have tgt : skip 3 p = skip 1 (skip 1 (skip 1 p)) := by simp [skip_skip]
    rw [parse_while_statement, tgt]
    simp [hR.run_match_token hk, R1.run_match_token hl, R2.run_parse_expression hc,
      match_token_of_read_ne R3.read ht, parser_error_of_read R3.read, record]

theorem parse_while_statement_condition : ConditionGoesOn parse_while_statement := by
  intro p k l c r b rest hR hk hl hc hr hb _
  have R1 := hR.tail
  have R2 := R1.tail
  have E := R2.run_parse_expression_error hc
  have R3 := (R2.recorded c "Expected expression").tail
  have R4 := R3.tail
  obtain ⟨nb, hbk⟩ := derives_complete hb _ rest R4
  refine ⟨nb + 1, fun m hm => ?_⟩
  obtain ⟨m, rfl⟩ : ∃ j, m = j + 1 := ⟨m - 1, by omega⟩
  rw [parse_while_statement]
  simp only [hR.run_match_token hk, R1.run_match_token hl, E, R3.run_match_token hr,
    Outcome.bind_ok]
  simp only [Bool.true_eq_false, if_false]
  rw [hbk m (by omega)]
  simp only [skip_record, skip_skip]

theorem parse_if_statement_condition : ConditionGoesOn parse_if_statement := by
  intro p k l c r b rest hR hk hl hc hr hb hn
  have R1 := hR.tail
  have R2 := R1.tail
  have E := R2.run_parse_expression_error hc
  have R3 := (R2.recorded c "Expected expression").tail
  have R4 := R3.tail
  obtain ⟨nb, hbk⟩ := derives_complete hb _ rest R4
  have R5 := R4.skip_length b
  refine ⟨nb + 1, fun m hm => ?_⟩
  obtain ⟨m, rfl⟩ : ∃ j, m = j + 1 := ⟨m - 1, by omega⟩
  rw [parse_if_statement]
  simp only [hR.run_match_token hk, R1.run_match_token hl, E, R3.run_match_token hr,
    Outcome.bind_ok]
  simp only [Bool.true_eq_false, if_false]
  rw [hbk m (by omega)]
  simp only [Outcome.bind_ok]
  rw [no_else_branch R5 hn]
  simp only [skip_record, skip_skip]

/-- C17 as stated fails on `while ( + ) \x7b x ; \x7d` and on
`if ( + ) \x7b x ; \x7d`: with an operator in the condition position the
routine does not return after the four header tokens but parses the body block
and returns with the cursor at 8, past it. -/
theorem C17_bad_condition_counterexample :
    (∃ q, parse_while_statement 4 (start program_bad_condition) = .ok q ∧
      q.error_count = 1 ∧ q.token_index = 8 ∧ ¬ q.token_index ≤ 4) ∧
    (∃ q, parse_if_statement 4 (start program_bad_condition_if) = .ok q ∧
      q.error_count = 1 ∧ q.token_index = 8 ∧ ¬ q.token_index ≤ 4) :=
  ⟨⟨_, rfl, rfl, rfl, by decide⟩, ⟨_, rfl, rfl, rfl, by decide⟩⟩

/-- C17, amended. In `parse_if_statement` and `parse_while_statement` a
present token of the wrong kind at the keyword, the `(` or the `)` records its
error and ends the routine with the body unparsed.  A condition token that is
no expression does not: it is reported and consumed, and the routine goes on
to the `)` and parses the body block. -/
theorem C17_header_abort :
    HeaderAborts parse_if_statement "Expected 'if' keyword" ∧
    HeaderAborts parse_while_statement "Expected 'while' keyword" ∧
    ConditionGoesOn parse_if_statement ∧
    ConditionGoesOn parse_while_statement :=
  ⟨parse_if_statement_header, parse_while_statement_header,
    parse_if_statement_condition, parse_while_statement_condition⟩

/-- C17 amended, on `while ( + ) \x7b x ; \x7d` and on `while x`. -/
theorem C17_header_abort_witness :
    (∃ n, ∀ m, n ≤ m → parse_while_statement m (start program_bad_condition)
      = .ok (record (skip (4 + block_x.length) (start program_bad_condition))
          (operator "+") "Expected expression")) ∧
    parse_while_statement 1 (start [keyword "while", identifier "x"])
      = .ok (record (skip 1 (start [keyword "while", identifier "x"]))
          (identifier "x") "Expected '('") :=
  ⟨C17_header_abort.2.2.2 (start program_bad_condition) (keyword "while")
      (punctuation "(") (operator "+") (punctuation ")") block_x []
      (start_remaining program_bad_condition) rfl rfl
      (by simp [IsExpression, operator]) rfl
      block_x_derives NotElse.empty,
    C17_header_abort.2.1.2.1 0 (start [keyword "while", identifier "x"])
      (keyword "while") (identifier "x") [] (start_remaining _) rfl (by decide)⟩

/-! ## The state built by `main` -/

theorem read_tokens_spec (scanned : List Token) :
    ∀ (p : Parser) (c : Nat),
      (read_tokens scanned p c).1.tokens = p.tokens ++ scanned ∧
      (read_tokens scanned p c).2 = c + scanned.length ∧
      p.token_capacity ≤ (read_tokens scanned p c).1.token_capacity ∧
      (read_tokens scanned p c).1.current_token = p.current_token ∧
      (read_tokens scanned p c).1.token_index = p.token_index := by
  induction scanned with
  | nil => intro p c; simp [read_tokens]
  | cons t ts ih =>
    intro p c
    rw [read_tokens]
    by_cases h : c ≥ p.token_capacity
    · simp only [h, if_true]
      obtain ⟨h1, h2, h3, h4, h5⟩ := ih
        { p with token_capacity := p.token_capacity * 2, tokens := p.tokens ++ [t] } (c + 1)
      refine ⟨by simpa using h1, by rw [h2, List.length_cons]; omega, ?_, h4, h5⟩
      simp only at h3
      omega
    · simp only [h, if_false]
      obtain ⟨h1, h2, h3, h4, h5⟩ := ih { p with tokens := p.tokens ++ [t] } (c + 1)
      exact ⟨by simpa using h1, by rw [h2, List.length_cons]; omega, h3, h4, h5⟩

/-- C18. The state `main` builds holds the scanned tokens, but the capacity
that `peek_token` and `advance_token` bound the cursor against is 1000 or
more, whatever the number of tokens: after one scanned token `peek_token` at
cursor 1 still returns a pointer, to a slot never written, and
`parse_program` stops at the read of that slot.  After no scanned token the
current token is whatever `create_parser` found in the allocated memory. -/
theorem C18_main_buffer_bound :
    (∀ g ts, (main_state g ts).tokens = ts ∧
      1000 ≤ (main_state g ts).token_capacity) ∧
    (∀ g, (main_state g [identifier "x"]).token_capacity = 1000 ∧
      peek_token { main_state g [identifier "x"] with token_index := 1 } = some 1 ∧
      ∀ n, 2 ≤ n →
        parse_program n (main_state g [identifier "x"]) = .fault .invalid_read) ∧
    (∀ g, (main_state g []).current_token = g) := by
  refine ⟨fun g ts => ?_, fun g => ⟨rfl, rfl, fun n hn => ?_⟩, fun g => rfl⟩
  · obtain ⟨h1, -, h3, -, -⟩ := read_tokens_spec ts
      { createParser g with token_capacity := 1000, tokens := [], token_index := 0 } 0
    unfold main_state
    simp only at h1 h3 ⊢
    split
    · exact ⟨by simpa using h1, h3⟩
    · exact ⟨by simpa using h1, h3⟩
  · exact fuel_mono parse_program_mono hn (by simp) rfl

end JsParser
